import Mathlib

/-!
Shallow embedding of `src/process.py` (ad-performance preprocessing for
multi-armed-bandit allocation).

A pandas `DataFrame` is modelled by `DF`: an ordered list of column names
together with labelled rows; each row is kept as an association list from
column name to cell value, aligned with the column list for well-formed
frames.  Cell values (`Val`) are missing (`NaN`), strings, rational numbers
(standing for Python floats, exact arithmetic), or calendar dates (stored as
a Julian day number, so that Python `date` comparison and `timedelta`
arithmetic become integer comparison and subtraction).

Pandas / Python behaviour that the claims depend on is modelled explicitly:
  * column access on a missing column raises `KeyError`;
  * `fillna` replaces only `NaN`, `Series.sum` skips `NaN`;
  * `x != 0` is true for `NaN` and for strings (so such rows survive the
    zero-cost filter);
  * `int(x)` truncates toward zero;
  * `==` between a `NaN` cell and anything (itself included) is false,
    while `drop_duplicates` treats equal rows (`NaN` included) as duplicates;
  * `.at[label, col] = v` writes by *label* and appends a fresh all-`NaN`
    row when the label is absent (setting with enlargement), whereas
    `.iloc[i]` reads by *position*;
  * in-place mutation of the caller's frame is captured by the `*Full`
    variants, which return the caller's view of its argument after the call
    together with the call's result.
-/

attribute [local semireducible] Rat.mul Rat.add Rat.sub Rat.inv

inductive Val where
  | na : Val
  | str : String → Val
  | num : ℚ → Val
  | date : ℤ → Val
deriving DecidableEq, Repr

abbrev Row := List (String × Val)

/-- A pandas DataFrame: ordered column names plus labelled rows.  Row labels
are the pandas index (ints); each row's cells are keyed by column name. -/
structure DF where
  cols : List String
  rows : List (ℕ × Row)
deriving DecidableEq, Repr

/-- Python errors raised by the pipeline. -/
inductive PErr where
  | keyError (c : String)
  | typeError
  | parseError (s : String)
  | indexError
deriving DecidableEq, Repr

instance {ε α : Type} [DecidableEq ε] [DecidableEq α] : DecidableEq (Except ε α) :=
  fun x y =>
    match x, y with
    | .error a, .error b =>
      if h : a = b then .isTrue (by rw [h]) else .isFalse (by simp [h])
    | .ok a, .ok b =>
      if h : a = b then .isTrue (by rw [h]) else .isFalse (by simp [h])
    | .error _, .ok _ => .isFalse (by simp)
    | .ok _, .error _ => .isFalse (by simp)

/-- Column access inside a row: value of the first cell keyed `c`
(`NaN` when the key is absent, which for well-formed frames matches a
missing column). -/
def aget : Row → String → Val
  | [], _ => .na
  | p :: r, c => if p.1 = c then p.2 else aget r c

/-- Does the row carry a cell keyed `c`? -/
def rowHasKey : Row → String → Bool
  | [], _ => false
  | p :: r, c => decide (p.1 = c) || rowHasKey r c

/-- Set column `c` of a row to `v`: replace its cells when the key is
present, append the cell otherwise (pandas column assignment /
`.at` enlargement on the column axis). -/
def asetRow (r : Row) (c : String) (v : Val) : Row :=
  if rowHasKey r c then r.map (fun p => if p.1 = c then (c, v) else p)
  else r ++ [(c, v)]

/-- `column.lower().replace(" ", "_")` from line 15-16, char by char
(ASCII lowering, as for the relevant column names). -/
def canonName (s : String) : String :=
  String.mk (s.data.map (fun ch =>
    let c := ch.toLower
    if c = ' ' then '_' else c))

/-- Apply a function to every column name (both in `cols` and in the row
keys); models renaming the columns of a frame in place. -/
def DF.mapCols (d : DF) (f : String → String) : DF :=
  ⟨d.cols.map f, d.rows.map (fun r => (r.1, r.2.map (fun p => (f p.1, p.2))))⟩

/-- `data.rename(columns={a: b}, inplace=True)`. -/
def DF.rename (d : DF) (a b : String) : DF :=
  d.mapCols (fun c => if c = a then b else c)

/-- `data.drop([c], axis='columns')`: remove every column labelled `c`. -/
def DF.dropCol (d : DF) (c : String) : DF :=
  ⟨d.cols.filter (fun x => decide (¬ x = c)),
   d.rows.map (fun r => (r.1, r.2.filter (fun p => decide (¬ p.1 = c))))⟩

/-- Lines 14-30 of `process.py`: canonicalize column names, apply the
Facebook/Google aliases, drop `reporting_starts` and `currency` when
present.  These operations mutate the caller's frame in place. -/
def preprocessCanon (d : DF) : DF :=
  let d := d.mapCols canonName
  let d := d.rename "reporting_ends" "date"
  let d := d.rename "amount_spent_(eur)" "cost"
  let d := d.rename "post_engagement" "engagements"
  let d := d.rename "link_clicks" "clicks"
  let d := d.rename "purchases" "conversions"
  let d := if "reporting_starts" ∈ d.cols then d.dropCol "reporting_starts" else d
  let d := d.rename "day" "date"
  if "currency" ∈ d.cols then d.dropCol "currency" else d

/-- `data.replace('', np.nan)` (line 33): empty strings become missing,
in every column; returns a copy. -/
def DF.replaceEmptyNa (d : DF) : DF :=
  ⟨d.cols, d.rows.map (fun r =>
    (r.1, r.2.map (fun p => if p.2 = .str "" then (p.1, .na) else p)))⟩

/-- `data[c].fillna(value=0.0, ...)` (line 36): `KeyError` when the column
is absent, otherwise replace missing values of that column with `0`. -/
def DF.fillnaZero (d : DF) (c : String) : Except PErr DF :=
  if c ∈ d.cols then
    .ok ⟨d.cols, d.rows.map (fun r =>
      (r.1, r.2.map (fun p => if p.1 = c ∧ p.2 = .na then (p.1, .num 0) else p)))⟩
  else .error (.keyError c)

/-- The five metric/cost columns of line 34-35, in source order. -/
def metricCols : List String :=
  ["cost", "impressions", "engagements", "clicks", "conversions"]

/-- The `for column in [...]` fillna loop of lines 34-36. -/
def fillnaAll : List String → DF → Except PErr DF
  | [], d => .ok d
  | c :: cs, d =>
    match d.fillnaZero c with
    | .error e => .error e
    | .ok d1 => fillnaAll cs d1

/-- `data = data[data['cost'] != 0]` (line 39).  In Python `x != 0` holds
for `NaN`, strings and dates as well, so only cells equal to numeric `0`
are dropped. -/
def DF.filterCostNonzero (d : DF) : Except PErr DF :=
  if "cost" ∈ d.cols then
    .ok ⟨d.cols, d.rows.filter (fun r => decide (¬ aget r.2 "cost" = .num 0))⟩
  else .error (.keyError "cost")

/-- One step of `Series.sum`: missing cells are skipped (pandas
`skipna=True`), non-numeric cells make the sum raise. -/
def sumCells (c : String) : List (ℕ × Row) → Except PErr ℚ
  | [] => .ok 0
  | r :: rs =>
    match aget r.2 c with
    | .na =>
      sumCells c rs
    | .num q =>
      match sumCells c rs with
      | .error e => .error e
      | .ok s => .ok (q + s)
    | _ => .error .typeError

/-- `data[c].sum()`: `KeyError` when the column is absent. -/
def DF.colSum (d : DF) (c : String) : Except PErr ℚ :=
  if c ∈ d.cols then sumCells c d.rows else .error (.keyError c)

/-- Lines 42-51: one iteration of the weight-resolution loop for the metric
column `m` (e.g. `"impressions"`).  A supplied weight is used unchanged —
the code performs no validation; otherwise the weight is `0` when the
metric's column sum is `0` and `sum(cost) * 100 / sum(metric)` otherwise. -/
def resolveWeight (d : DF) (m : String) (supplied : Option ℚ) : Except PErr ℚ :=
  match supplied with
  | some w => .ok w
  | none =>
    match d.colSum m with
    | .error e => .error e
    | .ok s =>
      if s = 0 then .ok 0
      else
        match d.colSum "cost" with
        | .error e => .error e
        | .ok cs => .ok (cs * 100 / s)

/-- A cell read as a Python number for arithmetic; anything non-numeric
raises. -/
def valNum : Val → Except PErr ℚ
  | .num q => .ok q
  | _ => .error .typeError

/-- Lines 54-58, per row: `successes` is the weighted sum of the four
success metrics of that row. -/
def rowSuccesses (r : Row) (wi we wc wk : ℚ) : Except PErr ℚ :=
  match valNum (aget r "impressions") with
  | .error e => .error e
  | .ok vi =>
  match valNum (aget r "engagements") with
  | .error e => .error e
  | .ok ve =>
  match valNum (aget r "clicks") with
  | .error e => .error e
  | .ok vc =>
  match valNum (aget r "conversions") with
  | .error e => .error e
  | .ok vk => .ok (vi * wi + ve * we + vc * wc + vk * wk)

/-- Build the `successes` column (lines 53-58). -/
def addSuccesses (wi we wc wk : ℚ) : List (ℕ × Row) → Except PErr (List (ℕ × Row))
  | [] => .ok []
  | r :: rs =>
    match rowSuccesses r.2 wi we wc wk with
    | .error e => .error e
    | .ok s =>
      match addSuccesses wi we wc wk rs with
      | .error e => .error e
      | .ok rest => .ok ((r.1, asetRow r.2 "successes" (.num s)) :: rest)

/-- Python `int(x)` on a float: truncation toward zero. -/
def truncQ (q : ℚ) : ℤ :=
  if q < 0 then -⌊-q⌋ else ⌊q⌋

/-- Lines 60-63, per row: `trials = int(cost * 100) + successes + 1`
(a Python float, since `successes` is one). -/
def rowTrials (r : Row) : Except PErr ℚ :=
  match valNum (aget r "cost") with
  | .error e => .error e
  | .ok c =>
    match valNum (aget r "successes") with
    | .error e => .error e
    | .ok s => .ok ((truncQ (c * 100) : ℚ) + s + 1)

/-- Build the `trials` column (lines 60-63). -/
def addTrials : List (ℕ × Row) → Except PErr (List (ℕ × Row))
  | [] => .ok []
  | r :: rs =>
    match rowTrials r.2 with
    | .error e => .error e
    | .ok t =>
      match addTrials rs with
      | .error e => .error e
      | .ok rest => .ok ((r.1, asetRow r.2 "trials" (.num t)) :: rest)

/-- Column-name update for a pandas column assignment `data[c] = ...`:
append the name when new. -/
def setCols (cols : List String) (c : String) : List String :=
  if c ∈ cols then cols else cols ++ [c]

/-- `data.dropna(axis=0, how='any')` (line 77). -/
def DF.dropna (d : DF) : DF :=
  ⟨d.cols, d.rows.filter (fun r => r.2.all (fun p => decide (¬ p.2 = .na)))⟩

/-- Lines 53-79 of `preprocess`, once the four weights are resolved:
derive `successes` and `trials`, drop the five raw metric columns, drop
rows still containing missing values. -/
def preprocessAfterWeights (d : DF) (wi we wc wk : ℚ) : Except PErr DF :=
  match addSuccesses wi we wc wk d.rows with
  | .error e => .error e
  | .ok rs1 =>
    match addTrials rs1 with
    | .error e => .error e
    | .ok rs2 =>
      let d2 : DF := ⟨setCols (setCols d.cols "successes") "trials", rs2⟩
      let d3 := ((((d2.dropCol "cost").dropCol "impressions").dropCol
                    "engagements").dropCol "clicks").dropCol "conversions"
      .ok d3.dropna

/-- Lines 42-79: resolve the four weights against the zero-cost-filtered
frame, then finish. -/
def resolveAndFinish (d : DF) (iw ew cw kw : Option ℚ) : Except PErr DF :=
  match resolveWeight d "impressions" iw with
  | .error e => .error e
  | .ok wi =>
  match resolveWeight d "engagements" ew with
  | .error e => .error e
  | .ok we =>
  match resolveWeight d "clicks" cw with
  | .error e => .error e
  | .ok wc =>
  match resolveWeight d "conversions" kw with
  | .error e => .error e
  | .ok wk => preprocessAfterWeights d wi we wc wk

/-- Lines 32-79 of `preprocess`: everything after the in-place column
canonicalization (from line 33 on, the code operates on a copy of the
caller's frame). -/
def preprocessRest (d0 : DF) (iw ew cw kw : Option ℚ) : Except PErr DF :=
  match fillnaAll metricCols d0.replaceEmptyNa with
  | .error e => .error e
  | .ok d1 =>
    match d1.filterCostNonzero with
    | .error e => .error e
    | .ok d2 => resolveAndFinish d2 iw ew cw kw

/-- `preprocess(data, impression_weight, engagement_weight, click_weight,
conversion_weight)` of `process.py`, together with the caller's view of its
argument after the call: lines 15-31 rename and drop columns of the
caller's frame in place, line 33 then switches to a copy. -/
def preprocessFull (d : DF) (iw ew cw kw : Option ℚ) : DF × Except PErr DF :=
  let c := preprocessCanon d
  (c, preprocessRest c iw ew cw kw)

/-- The value returned by `preprocess`. -/
def preprocess (d : DF) (iw ew cw kw : Option ℚ) : Except PErr DF :=
  (preprocessFull d iw ew cw kw).2

/-! ### `filter_dates` (lines 82-87)

`pd.to_datetime(data['date'], format='%Y-%m-%d').dt.date` parses the date
column: strings must match `%Y-%m-%d` (year, month, day; a valid calendar
date), `NaN` becomes `NaT`, already-parsed dates pass through, anything
else raises.  Dates are stored as Julian day numbers, so that Python's
`date` ordering and `timedelta(days=cutoff)` arithmetic are integer
ordering and subtraction.  `datetime.date.today()` is wall-clock input and
is passed explicitly as the `today` parameter. -/

def isLeap (y : ℕ) : Bool :=
  y % 4 == 0 && (y % 100 != 0 || y % 400 == 0)

def daysInMonth (y m : ℕ) : ℕ :=
  if m = 2 then (if isLeap y then 29 else 28)
  else if m = 4 ∨ m = 6 ∨ m = 9 ∨ m = 11 then 30
  else 31

/-- Julian day number of the civil date `y-m-d` (valid for `y ≥ 1`);
strictly increasing along the calendar, one unit per day. -/
def jdn (y m d : ℕ) : ℤ :=
  let a : ℕ := (14 - m) / 12
  let y4 : ℕ := y + 4800 - a
  let m4 : ℕ := m + 12 * a - 3
  (d : ℤ) + ((153 * m4 + 2) / 5 : ℕ) + 365 * (y4 : ℤ) + ((y4 / 4 : ℕ) : ℤ)
    - ((y4 / 100 : ℕ) : ℤ) + ((y4 / 400 : ℕ) : ℤ) - 32045

/-- Split a character list at every `'-'`. -/
def splitDash : List Char → List (List Char)
  | [] => [[]]
  | c :: rest =>
    match splitDash rest with
    | [] => if c = '-' then [[], []] else [[c]]
    | h :: t => if c = '-' then [] :: h :: t else (c :: h) :: t

/-- Numeric value of a nonempty all-digit character list. -/
def digitsVal (l : List Char) : Option ℕ :=
  if l.all Char.isDigit && !l.isEmpty then
    some (l.foldl (fun a c => a * 10 + (c.toNat - 48)) 0)
  else none

/-- `datetime.strptime(s, '%Y-%m-%d')`-style parsing: three dash-separated
digit groups forming a valid calendar date. -/
def parseDateStr (s : String) : Option ℤ :=
  match splitDash s.data with
  | [ys, ms, ds] =>
    match digitsVal ys, digitsVal ms, digitsVal ds with
    | some y, some m, some d =>
      if 1 ≤ y ∧ 1 ≤ m ∧ m ≤ 12 ∧ 1 ≤ d ∧ d ≤ daysInMonth y m then
        some (jdn y m d)
      else none
    | _, _, _ => none
  | _ => none

/-- Parse one `date` cell: `NaN` stays `NaT`, dates pass through, strings
are parsed (raising `InvalidDateFormat`-style on failure), numbers raise. -/
def parseCell : Val → Except PErr Val
  | .na => .ok .na
  | .date o => .ok (.date o)
  | .str s =>
    match parseDateStr s with
    | some o => .ok (.date o)
    | none => .error (.parseError s)
  | .num _ => .error .typeError

/-- Parse the whole `date` column cell by cell. -/
def parseRows : List (ℕ × Row) → Except PErr (List (ℕ × Row))
  | [] => .ok []
  | r :: rs =>
    match parseCell (aget r.2 "date") with
    | .error e => .error e
    | .ok v =>
      match parseRows rs with
      | .error e => .error e
      | .ok rest => .ok ((r.1, asetRow r.2 "date" v) :: rest)

/-- Line 84: `data['date'] = pd.to_datetime(data['date'],
format='%Y-%m-%d').dt.date`, an in-place update of the caller's frame. -/
def DF.parseDateCol (d : DF) : Except PErr DF :=
  if "date" ∈ d.cols then
    match parseRows d.rows with
    | .error e => .error e
    | .ok rs => .ok ⟨setCols d.cols "date", rs⟩
  else .error (.keyError "date")

/-- The row-keeping test of lines 85-86: `date >= today - cutoff` on a
parsed cell; `NaT` compares false. -/
def dateGE (v : Val) (bound : ℤ) : Bool :=
  match v with
  | .date o => bound ≤ o
  | _ => false

/-- `filter_dates(data, cutoff)` together with the caller's view of its
argument after the call: the caller's `date` column is overwritten in
place by the parsed dates (line 84); the filtered frame (a fresh slice) is
returned.  On a parse failure the exception propagates before the column
assignment, leaving the caller's frame unchanged. -/
def filterDatesFull (today : ℤ) (d : DF) (cutoff : ℤ) : DF × Except PErr DF :=
  match d.parseDateCol with
  | .error e => (d, .error e)
  | .ok d1 =>
    (d1, .ok ⟨d1.cols, d1.rows.filter (fun r => dateGE (aget r.2 "date") (today - cutoff))⟩)

/-- The value returned by `filter_dates`. -/
def filter_dates (today : ℤ) (d : DF) (cutoff : ℤ) : Except PErr DF :=
  (filterDatesFull today d cutoff).2

/-! ### `reindex_options` (lines 90-102) -/

/-- First-seen-order deduplication, as pandas `drop_duplicates()` does on
full rows (`NaN` cells count as equal there, hence structural equality). -/
def firstDedupAux (seen : List Row) : List Row → List Row
  | [] => []
  | x :: xs =>
    if x ∈ seen then firstDedupAux seen xs
    else x :: firstDedupAux (x :: seen) xs

def firstDedup (l : List Row) : List Row :=
  firstDedupAux [] l

/-- Line 95: `combinations = data.drop(['date', 'trials', 'successes'],
axis='columns')`; pandas raises `KeyError` when any label is missing. -/
def dropIdCols (d : DF) : Except PErr DF :=
  if "date" ∈ d.cols ∧ "trials" ∈ d.cols ∧ "successes" ∈ d.cols then
    .ok (((d.dropCol "date").dropCol "trials").dropCol "successes")
  else .error (.keyError "date_trials_successes")

/-- Lines 96-97: `combinations.drop_duplicates().reset_index().drop('index',
axis='columns')`: deduplicate preserving first-seen order and relabel the
rows `0, 1, 2, ...` so that each option's label is its position. -/
def optionsOf (comb : DF) : DF :=
  ⟨comb.cols, (firstDedup (comb.rows.map (fun r => r.2))).enum⟩

/-- Python `==` between an `ad_id` cell and a scalar: `NaN` equals nothing
(itself included), values of different kinds compare unequal. -/
def valEqPy : Val → Val → Bool
  | .num a, .num b => a == b
  | .str a, .str b => a == b
  | .date a, .date b => a == b
  | _, _ => false

/-- Line 101, right-hand side:
`options.loc[options['ad_id'] == v].index[0]` — the label of the first
option whose `ad_id` equals `v` (`KeyError` without an `ad_id` column,
`IndexError` when nothing matches). -/
def optFirstMatch (options : DF) (v : Val) : Except PErr ℕ :=
  if "ad_id" ∈ options.cols then
    match options.rows.find? (fun r => valEqPy (aget r.2 "ad_id") v) with
    | some r => .ok r.1
    | none => .error .indexError
  else .error (.keyError "ad_id")

/-- `data[c] = v` for a constant: in-place column assignment (line 98). -/
def DF.addColConst (d : DF) (c : String) (v : Val) : DF :=
  ⟨setCols d.cols c, d.rows.map (fun r => (r.1, asetRow r.2 c v))⟩

/-- `data.at[lbl, 'option_id'] = v`: label-based scalar write.  When the
label exists its row is updated; otherwise pandas setting-with-enlargement
appends a fresh row carrying that label, all cells `NaN` except the one
written. -/
def atSetOptionId (d : DF) (lbl : ℕ) (v : Val) : DF :=
  if d.rows.any (fun r => decide (r.1 = lbl)) then
    ⟨d.cols, d.rows.map (fun r =>
      if r.1 = lbl then (r.1, asetRow r.2 "option_id" v) else r)⟩
  else
    ⟨d.cols, d.rows ++
      [(lbl, d.cols.map (fun c => (c, if c = "option_id" then v else Val.na)))]⟩

/-- One iteration of the loop of lines 99-101 at loop variable `i`:
read row `i` positionally (`.iloc[i]`), look its `ad_id` up in the options
table, write the resulting option label through `.at[i, 'option_id']`. -/
def reindexStep (options : DF) (d : DF) (i : ℕ) : Except PErr DF :=
  match d.rows.get? i with
  | none => .error .indexError
  | some r =>
    match optFirstMatch options (aget r.2 "ad_id") with
    | .error e => .error e
    | .ok j => .ok (atSetOptionId d i (.num j))

/-- The loop `for i in range(len(data))`, threading the mutated frame; on
an exception the partially mutated frame is what the caller observes. -/
def reindexLoop (options : DF) : DF → List ℕ → DF × Option PErr
  | d, [] => (d, none)
  | d, i :: rest =>
    match reindexStep options d i with
    | .error e => (d, some e)
    | .ok d1 => reindexLoop options d1 rest

/-- `reindex_options(data)` together with the caller's view of its argument
after the call: the `option_id` column is created and filled on the
caller's frame in place, and the returned per-row table *is* the caller's
(mutated) frame. -/
def reindexFull (d : DF) : DF × Except PErr (DF × DF) :=
  match dropIdCols d with
  | .error e => (d, .error e)
  | .ok comb =>
    let options := optionsOf comb
    let d0 := d.addColConst "option_id" (.num 0)
    match reindexLoop options d0 (List.range d0.rows.length) with
    | (d1, none) => (d1, .ok (options, d1))
    | (d1, some e) => (d1, .error e)

/-- The value returned by `reindex_options`. -/
def reindex_options (d : DF) : Except PErr (DF × DF) :=
  (reindexFull d).2

/-! ### Predicates used by the verification -/

/-- A metric/cost cell acceptable on input: missing, empty string, or a
non-negative number. -/
def goodCell (v : Val) : Prop :=
  v = .na ∨ v = .str "" ∨ ∃ q : ℚ, v = .num q ∧ 0 ≤ q

instance goodCell.dec : DecidablePred goodCell := fun v =>
  match v with
  | .na => .isTrue (Or.inl rfl)
  | .str s =>
    if h : s = "" then .isTrue (Or.inr (Or.inl (by rw [h])))
    else .isFalse (by simp [goodCell, h])
  | .num q =>
    if h : 0 ≤ q then .isTrue (Or.inr (Or.inr ⟨q, rfl, h⟩))
    else .isFalse (by simp [goodCell, h])
  | .date o => .isFalse (by simp [goodCell])

/-- A metric/cost cell after empty-string removal and zero-fill: missing
or a non-negative number. -/
def nnCell (v : Val) : Prop :=
  v = .na ∨ ∃ q : ℚ, v = .num q ∧ 0 ≤ q

/-- Every metric/cost cell of every row is missing or non-negative. -/
def NNrows (rows : List (ℕ × Row)) : Prop :=
  ∀ r ∈ rows, ∀ c ∈ metricCols, nnCell (aget r.2 c)

/-- Rows carrying a non-negative `successes` cell and a well-typed cost. -/
def SProws (rows : List (ℕ × Row)) : Prop :=
  ∀ r ∈ rows, (∃ s : ℚ, aget r.2 "successes" = .num s ∧ 0 ≤ s) ∧
    nnCell (aget r.2 "cost")

/-- Rows (of the addTrials stage, where the raw columns are still
present) whose `trials` cell obeys the encoding
`trials = ⌊cost * 100⌋ + successes + 1`, with `cost` the value of that
row's own (post-fill) `cost` cell. -/
def TProws (rows : List (ℕ × Row)) : Prop :=
  ∀ r ∈ rows, ∃ s t c0 : ℚ,
    aget r.2 "successes" = .num s ∧ aget r.2 "trials" = .num t ∧
    aget r.2 "cost" = .num c0 ∧
    0 ≤ s ∧ 0 ≤ c0 ∧ t = (⌊c0 * 100⌋ : ℚ) + s + 1

/-- The per-row option assignment as §4.3 of the specification words it:
every row receives the label of the first option in the options table
whose `ad_id` equals the row's; used to state the refinement that
`reindex_options` implements it when the row labels are `0..n-1`. -/
def reindexSpec (d : DF) : Except PErr (DF × DF) :=
  match dropIdCols d with
  | .error e => .error e
  | .ok comb =>
    let options := optionsOf comb
    match specRows options d.rows with
    | .error e => .error e
    | .ok rs => .ok (options, ⟨setCols d.cols "option_id", rs⟩)
where
  specRows (options : DF) : List (ℕ × Row) → Except PErr (List (ℕ × Row))
    | [] => .ok []
    | r :: rs =>
      match optFirstMatch options (aget r.2 "ad_id") with
      | .error e => .error e
      | .ok j =>
        match specRows options rs with
        | .error e => .error e
        | .ok rest =>
          .ok ((r.1, asetRow (asetRow r.2 "option_id" (.num 0)) "option_id" (.num j)) :: rest)

/-! ### Concrete frames used in examples, witnesses and counterexamples -/

/-- A Facebook-style export: two ads, spend 10 and 20, 100 impressions
each — the weight-inference example of §8 of the specification. -/
def exDF : DF :=
  ⟨["ad_id", "Reporting Ends", "Amount Spent (EUR)", "impressions",
    "Post Engagement", "Link Clicks", "Purchases"],
   [(0, [("ad_id", .str "a1"), ("Reporting Ends", .str "2024-06-10"),
         ("Amount Spent (EUR)", .num 10), ("impressions", .num 100),
         ("Post Engagement", .num 0), ("Link Clicks", .num 0),
         ("Purchases", .num 0)]),
    (1, [("ad_id", .str "a2"), ("Reporting Ends", .str "2024-06-11"),
         ("Amount Spent (EUR)", .num 20), ("impressions", .num 100),
         ("Post Engagement", .num 0), ("Link Clicks", .num 0),
         ("Purchases", .num 0)])]⟩

/-- What `preprocess` returns on `exDF`: inferred impression weight
`(10+20)*100/(100+100) = 15`, hence successes `1500` and trials
`1001 + 1500` resp. `2001 + 1500`. -/
def exOut : DF :=
  ⟨["ad_id", "date", "successes", "trials"],
   [(0, [("ad_id", .str "a1"), ("date", .str "2024-06-10"),
         ("successes", .num 1500), ("trials", .num 2501)]),
    (1, [("ad_id", .str "a2"), ("date", .str "2024-06-11"),
         ("successes", .num 1500), ("trials", .num 3501)])]⟩

/-- Two rows with costs `[1, 1]` and impressions `[1, 2]`: the inferred
impression weight is `200/3`, making every derived `successes` and
`trials` value a non-integral rational. -/
def fracDF : DF :=
  ⟨["ad_id", "date", "cost", "impressions", "engagements", "clicks",
    "conversions"],
   [(0, [("ad_id", .str "a1"), ("date", .str "2024-06-10"), ("cost", .num 1),
         ("impressions", .num 1), ("engagements", .num 0), ("clicks", .num 0),
         ("conversions", .num 0)]),
    (1, [("ad_id", .str "a2"), ("date", .str "2024-06-11"), ("cost", .num 1),
         ("impressions", .num 2), ("engagements", .num 0), ("clicks", .num 0),
         ("conversions", .num 0)])]⟩

/-- What `preprocess` returns on `fracDF`. -/
def fracOut : DF :=
  ⟨["ad_id", "date", "successes", "trials"],
   [(0, [("ad_id", .str "a1"), ("date", .str "2024-06-10"),
         ("successes", .num (200/3)), ("trials", .num (503/3))]),
    (1, [("ad_id", .str "a2"), ("date", .str "2024-06-11"),
         ("successes", .num (400/3)), ("trials", .num (703/3))])]⟩

/-- `exDF` after canonicalization, empty-string replacement and zero-fill
— also its own zero-cost filtrate, all costs being nonzero. -/
def exD2 : DF :=
  ⟨["ad_id", "date", "cost", "impressions", "engagements", "clicks",
    "conversions"],
   [(0, [("ad_id", .str "a1"), ("date", .str "2024-06-10"),
         ("cost", .num 10), ("impressions", .num 100),
         ("engagements", .num 0), ("clicks", .num 0),
         ("conversions", .num 0)]),
    (1, [("ad_id", .str "a2"), ("date", .str "2024-06-11"),
         ("cost", .num 20), ("impressions", .num 100),
         ("engagements", .num 0), ("clicks", .num 0),
         ("conversions", .num 0)])]⟩

/-- One row: cost 5, 10 impressions, all other metrics zero. -/
def negDF : DF :=
  ⟨["ad_id", "date", "cost", "impressions", "engagements", "clicks",
    "conversions"],
   [(0, [("ad_id", .str "a1"), ("date", .str "2024-06-10"), ("cost", .num 5),
         ("impressions", .num 10), ("engagements", .num 0),
         ("clicks", .num 0), ("conversions", .num 0)])]⟩

/-- What `preprocess` returns on `negDF` with supplied impression weight
`-50`: the negative weight is used as-is, giving successes `-500`. -/
def negOut : DF :=
  ⟨["ad_id", "date", "successes", "trials"],
   [(0, [("ad_id", .str "a1"), ("date", .str "2024-06-10"),
         ("successes", .num (-500)), ("trials", .num 1)])]⟩

/-- A frame with no `impressions`, `engagements`, `clicks` or
`conversions` column at all. -/
def noImpDF : DF :=
  ⟨["ad_id", "date", "cost"],
   [(0, [("ad_id", .str "a1"), ("date", .str "2024-06-10"),
         ("cost", .num 5)])]⟩

/-- Two bandit records dated `2024-06-08` and `2024-06-07`, for the date
boundary example with "today" fixed at `2024-06-15` and `cutoff_days = 7`. -/
def wDF : DF :=
  ⟨["ad_id", "date", "successes", "trials"],
   [(0, [("ad_id", .str "a1"), ("date", .str "2024-06-08"),
         ("successes", .num 2), ("trials", .num 5)]),
    (1, [("ad_id", .str "a2"), ("date", .str "2024-06-07"),
         ("successes", .num 1), ("trials", .num 4)])]⟩

/-- `wDF` with its `date` column parsed. -/
def wParsed : DF :=
  ⟨["ad_id", "date", "successes", "trials"],
   [(0, [("ad_id", .str "a1"), ("date", .date (jdn 2024 6 8)),
         ("successes", .num 2), ("trials", .num 5)]),
    (1, [("ad_id", .str "a2"), ("date", .date (jdn 2024 6 7)),
         ("successes", .num 1), ("trials", .num 4)])]⟩

/-- What `filter_dates` keeps of `wDF`: only the `2024-06-08` row. -/
def wKept : DF :=
  ⟨["ad_id", "date", "successes", "trials"],
   [(0, [("ad_id", .str "a1"), ("date", .date (jdn 2024 6 8)),
         ("successes", .num 2), ("trials", .num 5)])]⟩

/-- Three bandit records with the default range index `0, 1, 2`; ads `A`
and `B`, `A` appearing twice. -/
def rangeDF : DF :=
  ⟨["ad_id", "date", "successes", "trials"],
   [(0, [("ad_id", .str "A"), ("date", .date 3), ("successes", .num 2),
         ("trials", .num 5)]),
    (1, [("ad_id", .str "B"), ("date", .date 4), ("successes", .num 1),
         ("trials", .num 4)]),
    (2, [("ad_id", .str "A"), ("date", .date 5), ("successes", .num 1),
         ("trials", .num 4)])]⟩

/-- Two bandit records whose labels are `0` and `2` — not the default
range index (as left behind by a row-dropping stage). -/
def badDF : DF :=
  ⟨["ad_id", "date", "successes", "trials"],
   [(0, [("ad_id", .str "A"), ("date", .date 3), ("successes", .num 2),
         ("trials", .num 5)]),
    (2, [("ad_id", .str "B"), ("date", .date 4), ("successes", .num 1),
         ("trials", .num 4)])]⟩

/-- The options table of `badDF`: `A ↦ 0`, `B ↦ 1`. -/
def badOpts : DF :=
  ⟨["ad_id"], [(0, [("ad_id", .str "A")]), (1, [("ad_id", .str "B")])]⟩

/-- What `reindex_options` makes of `badDF`: the `B` row (label 2, read
positionally at `i = 1`) keeps `option_id 0` because `.at[1, ...]` writes
to the absent label `1`, appending a junk all-`NaN` row instead. -/
def badOut : DF :=
  ⟨["ad_id", "date", "successes", "trials", "option_id"],
   [(0, [("ad_id", .str "A"), ("date", .date 3), ("successes", .num 2),
         ("trials", .num 5), ("option_id", .num 0)]),
    (2, [("ad_id", .str "B"), ("date", .date 4), ("successes", .num 1),
         ("trials", .num 4), ("option_id", .num 0)]),
    (1, [("ad_id", .na), ("date", .na), ("successes", .na),
         ("trials", .na), ("option_id", .num 1)])]⟩

/-- `badDF`'s second row after the loop: `ad_id B` but `option_id 0`. -/
def badRowBOut : ℕ × Row :=
  (2, [("ad_id", .str "B"), ("date", .date 4), ("successes", .num 1),
       ("trials", .num 4), ("option_id", .num 0)])

/-- The options table of `rangeDF`: `A ↦ 0`, `B ↦ 1`. -/
def rangeOpts : DF :=
  ⟨["ad_id"], [(0, [("ad_id", .str "A")]), (1, [("ad_id", .str "B")])]⟩

/-- What `reindex_options` makes of `rangeDF`: option ids `0, 1, 0`. -/
def rangeOut : DF :=
  ⟨["ad_id", "date", "successes", "trials", "option_id"],
   [(0, [("ad_id", .str "A"), ("date", .date 3), ("successes", .num 2),
         ("trials", .num 5), ("option_id", .num 0)]),
    (1, [("ad_id", .str "B"), ("date", .date 4), ("successes", .num 1),
         ("trials", .num 4), ("option_id", .num 1)]),
    (2, [("ad_id", .str "A"), ("date", .date 5), ("successes", .num 1),
         ("trials", .num 4), ("option_id", .num 0)])]⟩

/-- Rows labelled consecutively starting at `s` (the pandas default range
index when `s = 0`). -/
def labeledFrom (s : ℕ) : List (ℕ × Row) → Prop
  | [] => True
  | r :: rs => r.1 = s ∧ labeledFrom (s + 1) rs

/-! ### Row-level lemmas -/

theorem aget_of_rowHasKey_eq_false {r : Row} {c : String}
    (h : rowHasKey r c = false) : aget r c = .na := by
  induction r with
  | nil => rfl
  | cons p r ih =>
    simp only [rowHasKey, Bool.or_eq_false_iff, decide_eq_false_iff_not] at h
    simp only [aget, if_neg h.1]
    exact ih h.2

theorem aget_append (r s : Row) (c : String) :
    aget (r ++ s) c = if rowHasKey r c then aget r c else aget s c := by
  induction r with
  | nil => simp [rowHasKey]
  | cons p r ih =>
    by_cases hp : p.1 = c
    · simp [aget, rowHasKey, hp]
    · simp only [List.cons_append, aget, if_neg hp, rowHasKey, hp, decide_eq_true_eq,
        decide_eq_false_iff_not, not_false_iff, Bool.false_or]
      exact ih

theorem aget_map_set_self (r : Row) (c : String) (v : Val) :
    aget (r.map (fun p => if p.1 = c then (c, v) else p)) c =
      if rowHasKey r c then v else .na := by
  induction r with
  | nil => simp [aget, rowHasKey]
  | cons p r ih =>
    by_cases hp : p.1 = c
    · simp [aget, rowHasKey, hp]
    · simp [aget, rowHasKey, hp, ih]

theorem aget_map_set_ne (r : Row) {c c' : String} (v : Val) (h : c' ≠ c) :
    aget (r.map (fun p => if p.1 = c then (c, v) else p)) c' = aget r c' := by
  induction r with
  | nil => rfl
  | cons p r ih =>
    by_cases hp : p.1 = c
    · have h1 : ¬ ((c, v).1 = c') := by simpa using Ne.symm h
      have h2 : ¬ p.1 = c' := by rw [hp]; exact Ne.symm h
      simp only [List.map_cons, if_pos hp, aget, if_neg h1, if_neg h2]
      exact ih
    · by_cases hq : p.1 = c'
      · simp only [List.map_cons, if_neg hp, aget, if_pos hq]
      · simp only [List.map_cons, if_neg hp, aget, if_neg hq]
        exact ih

theorem aget_asetRow_self (r : Row) (c : String) (v : Val) :
    aget (asetRow r c v) c = v := by
  unfold asetRow
  by_cases h : rowHasKey r c
  · rw [if_pos h, aget_map_set_self, if_pos h]
  · rw [if_neg h, aget_append, if_neg (by simpa using h)]
    simp [aget]

theorem aget_asetRow_ne (r : Row) {c c' : String} (v : Val) (h : c' ≠ c) :
    aget (asetRow r c v) c' = aget r c' := by
  unfold asetRow
  by_cases hk : rowHasKey r c
  · rw [if_pos hk, aget_map_set_ne r v h]
  · rw [if_neg hk, aget_append]
    by_cases hk2 : rowHasKey r c'
    · rw [if_pos hk2]
    · rw [if_neg hk2,
        show aget r c' = Val.na from aget_of_rowHasKey_eq_false (by simpa using hk2)]
      simp [aget, Ne.symm h]

theorem aget_filter_ne (r : Row) {c c' : String} (h : c' ≠ c) :
    aget (r.filter (fun p => decide (¬ p.1 = c))) c' = aget r c' := by
  induction r with
  | nil => rfl
  | cons p r ih =>
    simp only [List.filter_cons]
    by_cases hp : p.1 = c
    · rw [if_neg (by simp [hp]), ih]
      simp [aget, hp, Ne.symm h]
    · rw [if_pos (by simp [hp])]
      by_cases hq : p.1 = c'
      · simp only [aget, if_pos hq]
      · simp only [aget, if_neg hq]
        exact ih

/-! ### Invariant transport through `preprocess` -/

theorem aget_map_empty (r : Row) (c : String) :
    aget (r.map (fun p => if p.2 = Val.str "" then (p.1, Val.na) else p)) c =
      if aget r c = Val.str "" then Val.na else aget r c := by
  induction r with
  | nil => simp [aget]
  | cons p r ih =>
    by_cases hv : p.2 = Val.str ""
    · by_cases hp : p.1 = c <;> simp [aget, hv, hp, ih]
    · by_cases hp : p.1 = c <;> simp [aget, hv, hp, ih]

theorem NNrows_replaceEmptyNa {d : DF}
    (h : ∀ r ∈ d.rows, ∀ c ∈ metricCols, goodCell (aget r.2 c)) :
    NNrows d.replaceEmptyNa.rows := by
  intro r hr c hc
  unfold DF.replaceEmptyNa at hr
  rcases List.mem_map.1 hr with ⟨r0, hr0, rfl⟩
  simp only
  rw [aget_map_empty]
  rcases h r0 hr0 c hc with h1 | h1 | ⟨q, hq, hq0⟩
  · rw [h1]; left; simp
  · rw [h1]; left; simp
  · rw [hq]; right; exact ⟨q, by simp, hq0⟩

theorem aget_map_fill_cases (r : Row) (c c' : String) :
    aget (r.map (fun p => if p.1 = c ∧ p.2 = Val.na then (p.1, Val.num 0) else p)) c'
        = aget r c'
    ∨ aget (r.map (fun p => if p.1 = c ∧ p.2 = Val.na then (p.1, Val.num 0) else p)) c'
        = Val.num 0 := by
  induction r with
  | nil => left; rfl
  | cons p r ih =>
    simp only [List.map_cons]
    by_cases hpc : p.1 = c ∧ p.2 = Val.na
    · rw [if_pos hpc]
      by_cases hk : p.1 = c'
      · right; simp [aget, hk]
      · simp only [aget, if_neg hk]
        exact ih
    · rw [if_neg hpc]
      simp only [aget]
      by_cases hk : p.1 = c'
      · rw [if_pos hk, if_pos hk]; left; rfl
      · rw [if_neg hk, if_neg hk]; exact ih

theorem fillnaZero_ok {d d' : DF} {c : String} (h : d.fillnaZero c = .ok d') :
    d'.cols = d.cols ∧ (NNrows d.rows → NNrows d'.rows) := by
  unfold DF.fillnaZero at h
  by_cases hc : c ∈ d.cols
  · rw [if_pos hc] at h
    cases h
    refine ⟨rfl, fun hnn r hr c' hc' => ?_⟩
    rcases List.mem_map.1 hr with ⟨r0, hr0, rfl⟩
    simp only
    rcases aget_map_fill_cases r0.2 c c' with he | he
    · rw [he]; exact hnn r0 hr0 c' hc'
    · rw [he]; exact Or.inr ⟨0, rfl, le_refl 0⟩
  · rw [if_neg hc] at h
    cases h

theorem fillnaAll_ok : ∀ (cs : List String) {d d' : DF},
    fillnaAll cs d = .ok d' → d'.cols = d.cols ∧ (NNrows d.rows → NNrows d'.rows)
  | [], d, d', h => by cases h; exact ⟨rfl, id⟩
  | c :: cs, d, d', h => by
    unfold fillnaAll at h
    cases h1 : d.fillnaZero c with
    | error e => rw [h1] at h; cases h
    | ok d1 =>
      rw [h1] at h
      obtain ⟨hcols1, hnn1⟩ := fillnaZero_ok h1
      obtain ⟨hcols2, hnn2⟩ := fillnaAll_ok cs h
      exact ⟨hcols2.trans hcols1, fun hnn => hnn2 (hnn1 hnn)⟩

theorem filterCostNonzero_ok {d d' : DF} (h : d.filterCostNonzero = .ok d') :
    d'.cols = d.cols ∧ (NNrows d.rows → NNrows d'.rows) ∧
      ∀ r ∈ d'.rows, r ∈ d.rows ∧ aget r.2 "cost" ≠ .num 0 := by
  unfold DF.filterCostNonzero at h
  by_cases hc : "cost" ∈ d.cols
  · rw [if_pos hc] at h
    cases h
    refine ⟨rfl, fun hnn r hr c' hc' => ?_, fun r hr => ?_⟩
    · exact hnn r (List.mem_filter.1 hr).1 c' hc'
    · obtain ⟨h1, h2⟩ := List.mem_filter.1 hr
      exact ⟨h1, by simpa using h2⟩
  · rw [if_neg hc] at h
    cases h

theorem sumCells_nonneg : ∀ {rows : List (ℕ × Row)} {c : String} {s : ℚ},
    sumCells c rows = .ok s → (∀ r ∈ rows, nnCell (aget r.2 c)) → 0 ≤ s
  | [], c, s, h, _ => by cases h; exact le_refl 0
  | r :: rows, c, s, h, hnn => by
    unfold sumCells at h
    cases hv : aget r.2 c with
    | na =>
      rw [hv] at h
      exact sumCells_nonneg h (fun x hx => hnn x (List.mem_cons_of_mem r hx))
    | num q =>
      rw [hv] at h
      cases h2 : sumCells c rows with
      | error e => rw [h2] at h; cases h
      | ok s2 =>
        rw [h2] at h
        cases h
        have hq : (0:ℚ) ≤ q := by
          rcases hnn r (List.mem_cons_self r rows) with h3 | ⟨q2, hq2, h3⟩
          · rw [hv] at h3; cases h3
          · rw [hv] at hq2; cases hq2; exact h3
        have hs2 : (0:ℚ) ≤ s2 :=
          sumCells_nonneg h2 (fun x hx => hnn x (List.mem_cons_of_mem r hx))
        linarith
    | str s3 => rw [hv] at h; cases h
    | date o => rw [hv] at h; cases h

theorem colSum_nonneg {d : DF} {c : String} {s : ℚ} (h : d.colSum c = .ok s)
    (hc : c ∈ metricCols) (hnn : NNrows d.rows) : 0 ≤ s := by
  unfold DF.colSum at h
  by_cases hin : c ∈ d.cols
  · rw [if_pos hin] at h
    exact sumCells_nonneg h (fun r hr => hnn r hr c hc)
  · rw [if_neg hin] at h
    cases h

theorem resolveWeight_nonneg {d : DF} {m : String} {w : Option ℚ} {q : ℚ}
    (h : resolveWeight d m w = .ok q) (hm : m ∈ metricCols)
    (hw : ∀ x, w = some x → 0 ≤ x) (hnn : NNrows d.rows) : 0 ≤ q := by
  unfold resolveWeight at h
  cases w with
  | some x => cases h; exact hw q rfl
  | none =>
    cases h1 : d.colSum m with
    | error e => rw [h1] at h; cases h
    | ok s =>
      simp only [h1] at h
      by_cases hs : s = 0
      · rw [if_pos hs] at h; cases h; exact le_refl 0
      · rw [if_neg hs] at h
        cases h2 : d.colSum "cost" with
        | error e => rw [h2] at h; cases h
        | ok cs =>
          rw [h2] at h
          cases h
          have hs0 : 0 ≤ s := colSum_nonneg h1 hm hnn
          have hcs : 0 ≤ cs := colSum_nonneg h2 (by simp [metricCols]) hnn
          have : 0 ≤ cs * 100 := by linarith
          exact div_nonneg this hs0

theorem valNum_ok {v : Val} {q : ℚ} (h : valNum v = .ok q) : v = .num q := by
  cases v with
  | num q2 => cases h; rfl
  | na => cases h
  | str s => cases h
  | date o => cases h

theorem valNum_ok_nonneg {v : Val} {q : ℚ} (h : valNum v = .ok q)
    (hnn : nnCell v) : 0 ≤ q := by
  rcases hnn with h1 | ⟨q2, h1, h2⟩
  · rw [h1] at h; cases h
  · rw [h1] at h; cases h; exact h2

theorem rowSuccesses_nonneg {r : Row} {wi we wc wk s : ℚ}
    (h : rowSuccesses r wi we wc wk = .ok s)
    (hr : ∀ c ∈ metricCols, nnCell (aget r c))
    (hwi : 0 ≤ wi) (hwe : 0 ≤ we) (hwc : 0 ≤ wc) (hwk : 0 ≤ wk) : 0 ≤ s := by
  unfold rowSuccesses at h
  cases h1 : valNum (aget r "impressions") with
  | error e => rw [h1] at h; cases h
  | ok vi =>
    simp only [h1] at h
    cases h2 : valNum (aget r "engagements") with
    | error e => rw [h2] at h; cases h
    | ok ve =>
      simp only [h2] at h
      cases h3 : valNum (aget r "clicks") with
      | error e => rw [h3] at h; cases h
      | ok vc =>
        simp only [h3] at h
        cases h4 : valNum (aget r "conversions") with
        | error e => rw [h4] at h; cases h
        | ok vk =>
          simp only [h4] at h
          cases h
          have n1 := valNum_ok_nonneg h1 (hr "impressions" (by simp [metricCols]))
          have n2 := valNum_ok_nonneg h2 (hr "engagements" (by simp [metricCols]))
          have n3 := valNum_ok_nonneg h3 (hr "clicks" (by simp [metricCols]))
          have n4 := valNum_ok_nonneg h4 (hr "conversions" (by simp [metricCols]))
          have := mul_nonneg n1 hwi
          have := mul_nonneg n2 hwe
          have := mul_nonneg n3 hwc
          have := mul_nonneg n4 hwk
          linarith

theorem addSuccesses_ok {wi we wc wk : ℚ} : ∀ {rows rows' : List (ℕ × Row)},
    addSuccesses wi we wc wk rows = .ok rows' →
    (∀ r ∈ rows, ∀ c ∈ metricCols, nnCell (aget r.2 c)) →
    0 ≤ wi → 0 ≤ we → 0 ≤ wc → 0 ≤ wk → SProws rows'
  | [], rows', h, _, _, _, _, _ => by cases h; intro r hr; cases hr
  | r :: rows, rows', h, hnn, hwi, hwe, hwc, hwk => by
    unfold addSuccesses at h
    cases h1 : rowSuccesses r.2 wi we wc wk with
    | error e => rw [h1] at h; cases h
    | ok s =>
      simp only [h1] at h
      cases h2 : addSuccesses wi we wc wk rows with
      | error e => rw [h2] at h; cases h
      | ok rest =>
        simp only [h2] at h
        cases h
        intro x hx
        cases hx with
        | head =>
          refine ⟨⟨s, aget_asetRow_self _ _ _, ?_⟩, ?_⟩
          · exact rowSuccesses_nonneg h1
              (fun c hc => hnn r (List.mem_cons_self r rows) c hc) hwi hwe hwc hwk
          · rw [aget_asetRow_ne _ _ (by decide)]
            exact hnn r (List.mem_cons_self r rows) "cost" (by simp [metricCols])
        | tail _ hx2 =>
          exact addSuccesses_ok h2
            (fun y hy => hnn y (List.mem_cons_of_mem r hy)) hwi hwe hwc hwk x hx2

theorem truncQ_eq_floor {q : ℚ} (h : 0 ≤ q) : truncQ q = ⌊q⌋ := by
  unfold truncQ
  rw [if_neg (not_lt.2 h)]

theorem addTrials_ok : ∀ {rows rows' : List (ℕ × Row)},
    addTrials rows = .ok rows' → SProws rows → TProws rows'
  | [], rows', h, _ => by cases h; intro r hr; cases hr
  | r :: rows, rows', h, hsp => by
    unfold addTrials at h
    cases h1 : rowTrials r.2 with
    | error e => rw [h1] at h; cases h
    | ok t =>
      simp only [h1] at h
      cases h2 : addTrials rows with
      | error e => rw [h2] at h; cases h
      | ok rest =>
        simp only [h2] at h
        cases h
        intro x hx
        cases hx with
        | head =>
          obtain ⟨⟨s, hs, hs0⟩, hcost⟩ := hsp r (List.mem_cons_self r rows)
          unfold rowTrials at h1
          cases hc : valNum (aget r.2 "cost") with
          | error e => rw [hc] at h1; cases h1
          | ok c0 =>
            simp only [hc] at h1
            rw [hs] at h1
            simp only [valNum] at h1
            cases h1
            have hc0 : 0 ≤ c0 := valNum_ok_nonneg hc hcost
            refine ⟨s, _, c0, ?_, aget_asetRow_self _ _ _, ?_, hs0, hc0, ?_⟩
            · rw [aget_asetRow_ne _ _ (by decide)]
              exact hs
            · rw [aget_asetRow_ne _ _ (by decide)]
              exact valNum_ok hc
            · rw [truncQ_eq_floor (by positivity)]
        | tail _ hx2 =>
          exact addTrials_ok h2 (fun y hy => hsp y (List.mem_cons_of_mem r hy)) x hx2

theorem mem_dropCol_rows {d : DF} {c : String} {r : ℕ × Row}
    (hr : r ∈ (d.dropCol c).rows) :
    ∃ r0 ∈ d.rows, r.1 = r0.1 ∧
      r.2 = r0.2.filter (fun p => decide (¬ p.1 = c)) := by
  unfold DF.dropCol at hr
  rcases List.mem_map.1 hr with ⟨r0, hr0, rfl⟩
  exact ⟨r0, hr0, rfl, rfl⟩

/-- Lines 66-77: each row returned by `preprocess` is a row of the
addTrials stage with the five raw metric/cost cells removed — same label,
same `successes` and `trials` values. -/
theorem preprocessAfterWeights_link {d : DF} {wi we wc wk : ℚ} {out : DF}
    (h : preprocessAfterWeights d wi we wc wk = .ok out) :
    ∃ rs1 rs2, addSuccesses wi we wc wk d.rows = .ok rs1 ∧
      addTrials rs1 = .ok rs2 ∧
      ∀ r ∈ out.rows, ∃ r0 ∈ rs2, r.1 = r0.1 ∧
        aget r.2 "successes" = aget r0.2 "successes" ∧
        aget r.2 "trials" = aget r0.2 "trials" := by
  unfold preprocessAfterWeights at h
  cases h1 : addSuccesses wi we wc wk d.rows with
  | error e => rw [h1] at h; cases h
  | ok rs1 =>
    simp only [h1] at h
    cases h2 : addTrials rs1 with
    | error e => rw [h2] at h; cases h
    | ok rs2 =>
      simp only [h2] at h
      cases h
      refine ⟨rs1, rs2, rfl, h2, ?_⟩
      intro r hr
      have hr2 := (List.mem_filter.1 hr).1
      obtain ⟨r4, hr4, he1, hc1⟩ := mem_dropCol_rows hr2
      obtain ⟨r3, hr3, he2, hc2⟩ := mem_dropCol_rows hr4
      obtain ⟨r2b, hr2b, he3, hc3⟩ := mem_dropCol_rows hr3
      obtain ⟨r1b, hr1b, he4, hc4⟩ := mem_dropCol_rows hr2b
      obtain ⟨r0, hr0, he5, hc5⟩ := mem_dropCol_rows hr1b
      refine ⟨r0, hr0, by rw [he1, he2, he3, he4, he5], ?_, ?_⟩
      · rw [hc1, aget_filter_ne _ (by decide), hc2, aget_filter_ne _ (by decide),
          hc3, aget_filter_ne _ (by decide), hc4, aget_filter_ne _ (by decide),
          hc5, aget_filter_ne _ (by decide)]
      · rw [hc1, aget_filter_ne _ (by decide), hc2, aget_filter_ne _ (by decide),
          hc3, aget_filter_ne _ (by decide), hc4, aget_filter_ne _ (by decide),
          hc5, aget_filter_ne _ (by decide)]

/-- The pipeline of `preprocess` laid out stage by stage: on success the
fill/filter frames, resolved weights and addSuccesses/addTrials rows all
exist, the addTrials rows satisfy the cost-tied trials encoding
(`TProws`), and every output row is one of them minus the raw cells. -/
theorem preprocess_ok_link {d : DF} {iw ew cw kw : Option ℚ} {out : DF}
    (h : preprocess d iw ew cw kw = .ok out)
    (hgood : ∀ r ∈ (preprocessCanon d).rows, ∀ c ∈ metricCols,
      goodCell (aget r.2 c))
    (hiw : ∀ x, iw = some x → 0 ≤ x) (hew : ∀ x, ew = some x → 0 ≤ x)
    (hcw : ∀ x, cw = some x → 0 ≤ x) (hkw : ∀ x, kw = some x → 0 ≤ x) :
    ∃ d1 d2 wi we wc wk rs1 rs2,
      fillnaAll metricCols (preprocessCanon d).replaceEmptyNa = .ok d1 ∧
      d1.filterCostNonzero = .ok d2 ∧
      resolveWeight d2 "impressions" iw = .ok wi ∧
      resolveWeight d2 "engagements" ew = .ok we ∧
      resolveWeight d2 "clicks" cw = .ok wc ∧
      resolveWeight d2 "conversions" kw = .ok wk ∧
      addSuccesses wi we wc wk d2.rows = .ok rs1 ∧
      addTrials rs1 = .ok rs2 ∧
      TProws rs2 ∧
      (∀ r ∈ out.rows, ∃ r0 ∈ rs2, r.1 = r0.1 ∧
        aget r.2 "successes" = aget r0.2 "successes" ∧
        aget r.2 "trials" = aget r0.2 "trials") := by
  unfold preprocess preprocessFull preprocessRest at h
  simp only at h
  cases h1 : fillnaAll metricCols (preprocessCanon d).replaceEmptyNa with
  | error e => rw [h1] at h; cases h
  | ok d1 =>
    simp only [h1] at h
    cases h2 : d1.filterCostNonzero with
    | error e => rw [h2] at h; cases h
    | ok d2 =>
      simp only [h2] at h
      have hnn1 : NNrows d1.rows :=
        (fillnaAll_ok metricCols h1).2 (NNrows_replaceEmptyNa hgood)
      have hnn2 : NNrows d2.rows := (filterCostNonzero_ok h2).2.1 hnn1
      unfold resolveAndFinish at h
      cases hw1 : resolveWeight d2 "impressions" iw with
      | error e => rw [hw1] at h; cases h
      | ok wi =>
        simp only [hw1] at h
        cases hw2 : resolveWeight d2 "engagements" ew with
        | error e => rw [hw2] at h; cases h
        | ok we =>
          simp only [hw2] at h
          cases hw3 : resolveWeight d2 "clicks" cw with
          | error e => rw [hw3] at h; cases h
          | ok wc =>
            simp only [hw3] at h
            cases hw4 : resolveWeight d2 "conversions" kw with
            | error e => rw [hw4] at h; cases h
            | ok wk =>
              simp only [hw4] at h
              obtain ⟨rs1, rs2, ha1, ha2, hlink⟩ := preprocessAfterWeights_link h
              have htp : TProws rs2 := addTrials_ok ha2
                (addSuccesses_ok ha1 hnn2
                  (resolveWeight_nonneg hw1 (by simp [metricCols]) hiw hnn2)
                  (resolveWeight_nonneg hw2 (by simp [metricCols]) hew hnn2)
                  (resolveWeight_nonneg hw3 (by simp [metricCols]) hcw hnn2)
                  (resolveWeight_nonneg hw4 (by simp [metricCols]) hkw hnn2))
              exact ⟨d1, d2, wi, we, wc, wk, rs1, rs2, rfl, h2, hw1, hw2, hw3,
                hw4, ha1, ha2, htp, hlink⟩

set_option maxRecDepth 8000 in
theorem preprocess_exDF_eval : preprocess exDF none none none none = .ok exOut := by
  decide

set_option maxRecDepth 8000 in
theorem preprocess_fracDF_eval : preprocess fracDF none none none none = .ok fracOut := by
  decide

/-! ### Claim theorems -/

/-- C1: for every input table whose cost and metric values are
non-negative (missing or empty cells allowed) and with non-negative
supplied weights, every row of the table returned by `preprocess`
satisfies `0 ≤ successes ≤ trials` and `trials ≥ 1`. -/
theorem C1_preprocess_invariant
    (d : DF) (iw ew cw kw : Option ℚ) (out : DF)
    (hgood : ∀ r ∈ (preprocessCanon d).rows, ∀ c ∈ metricCols,
      goodCell (aget r.2 c))
    (hiw : ∀ x, iw = some x → 0 ≤ x) (hew : ∀ x, ew = some x → 0 ≤ x)
    (hcw : ∀ x, cw = some x → 0 ≤ x) (hkw : ∀ x, kw = some x → 0 ≤ x)
    (h : preprocess d iw ew cw kw = .ok out) :
    ∀ r ∈ out.rows, ∃ s t : ℚ,
      aget r.2 "successes" = .num s ∧ aget r.2 "trials" = .num t ∧
      0 ≤ s ∧ s ≤ t ∧ 1 ≤ t := by
  obtain ⟨d1, d2, wi, we, wc, wk, rs1, rs2, _, _, _, _, _, _, _, _, htp, hlink⟩ :=
    preprocess_ok_link h hgood hiw hew hcw hkw
  intro r hr
  obtain ⟨r0, hr0, _, hsEq, htEq⟩ := hlink r hr
  obtain ⟨s, t, c0, hs, ht, _, hs0, hc0, hform⟩ := htp r0 hr0
  have hfl : (0:ℤ) ≤ ⌊c0 * 100⌋ := Int.floor_nonneg.2 (by positivity)
  have hflq : (0:ℚ) ≤ (⌊c0 * 100⌋ : ℚ) := by exact_mod_cast hfl
  exact ⟨s, t, hsEq.trans hs, htEq.trans ht, hs0,
    by rw [hform]; linarith, by rw [hform]; linarith⟩

/-- Witness for C1 at the concrete frame `exDF`. -/
theorem C1_preprocess_invariant_witness :
    (∀ r ∈ (preprocessCanon exDF).rows, ∀ c ∈ metricCols,
      goodCell (aget r.2 c)) ∧
    (∀ r ∈ exOut.rows, ∃ s t : ℚ,
      aget r.2 "successes" = .num s ∧ aget r.2 "trials" = .num t ∧
      0 ≤ s ∧ s ≤ t ∧ 1 ≤ t) :=
  ⟨by decide,
   C1_preprocess_invariant exDF none none none none exOut (by decide)
     (fun x h => by cases h) (fun x h => by cases h)
     (fun x h => by cases h) (fun x h => by cases h)
     preprocess_exDF_eval⟩

/-- C3 (amended): under the non-negativity hypotheses of C1, the
`preprocess` pipeline derives, for every row, at the addTrials stage
(where the raw columns are still present) a `trials` cell equal to
`⌊c0 * 100⌋ + successes + 1` where `c0` is the value of *that row's own
post-fill `cost` cell*, with `trials ≥ 1`; and every row of the final
output is exactly one of those stage rows (same label) minus the raw
metric/cost cells, carrying the same `successes` and `trials` values.
`trials` is a rational (Python float), integral only when the row's
successes is. -/
theorem C3_trials_encoding
    (d : DF) (iw ew cw kw : Option ℚ) (out : DF)
    (hgood : ∀ r ∈ (preprocessCanon d).rows, ∀ c ∈ metricCols,
      goodCell (aget r.2 c))
    (hiw : ∀ x, iw = some x → 0 ≤ x) (hew : ∀ x, ew = some x → 0 ≤ x)
    (hcw : ∀ x, cw = some x → 0 ≤ x) (hkw : ∀ x, kw = some x → 0 ≤ x)
    (h : preprocess d iw ew cw kw = .ok out) :
    ∃ d1 d2 wi we wc wk rs1 rs2,
      fillnaAll metricCols (preprocessCanon d).replaceEmptyNa = .ok d1 ∧
      d1.filterCostNonzero = .ok d2 ∧
      resolveWeight d2 "impressions" iw = .ok wi ∧
      resolveWeight d2 "engagements" ew = .ok we ∧
      resolveWeight d2 "clicks" cw = .ok wc ∧
      resolveWeight d2 "conversions" kw = .ok wk ∧
      addSuccesses wi we wc wk d2.rows = .ok rs1 ∧
      addTrials rs1 = .ok rs2 ∧
      (∀ r0 ∈ rs2, ∃ s t c0 : ℚ,
        aget r0.2 "cost" = .num c0 ∧ aget r0.2 "successes" = .num s ∧
        aget r0.2 "trials" = .num t ∧ 0 ≤ s ∧ 0 ≤ c0 ∧
        t = (⌊c0 * 100⌋ : ℚ) + s + 1 ∧ 1 ≤ t) ∧
      (∀ r ∈ out.rows, ∃ r0 ∈ rs2, r.1 = r0.1 ∧
        aget r.2 "successes" = aget r0.2 "successes" ∧
        aget r.2 "trials" = aget r0.2 "trials") := by
  obtain ⟨d1, d2, wi, we, wc, wk, rs1, rs2, e1, e2, e3, e4, e5, e6, e7, e8,
    htp, hlink⟩ := preprocess_ok_link h hgood hiw hew hcw hkw
  refine ⟨d1, d2, wi, we, wc, wk, rs1, rs2, e1, e2, e3, e4, e5, e6, e7, e8,
    ?_, hlink⟩
  intro r0 hr0
  obtain ⟨s, t, c0, hs, ht, hcost, hs0, hc0, hform⟩ := htp r0 hr0
  have hfl : (0:ℤ) ≤ ⌊c0 * 100⌋ := Int.floor_nonneg.2 (by positivity)
  have hflq : (0:ℚ) ≤ (⌊c0 * 100⌋ : ℚ) := by exact_mod_cast hfl
  exact ⟨s, t, c0, hcost, hs, ht, hs0, hc0, hform, by rw [hform]; linarith⟩

/-- Witness for C3 at the concrete frame `exDF`. -/
theorem C3_trials_encoding_witness :
    (∀ r ∈ (preprocessCanon exDF).rows, ∀ c ∈ metricCols,
      goodCell (aget r.2 c)) ∧
    (∃ d1 d2 wi we wc wk rs1 rs2,
      fillnaAll metricCols (preprocessCanon exDF).replaceEmptyNa = .ok d1 ∧
      d1.filterCostNonzero = .ok d2 ∧
      resolveWeight d2 "impressions" none = .ok wi ∧
      resolveWeight d2 "engagements" none = .ok we ∧
      resolveWeight d2 "clicks" none = .ok wc ∧
      resolveWeight d2 "conversions" none = .ok wk ∧
      addSuccesses wi we wc wk d2.rows = .ok rs1 ∧
      addTrials rs1 = .ok rs2 ∧
      (∀ r0 ∈ rs2, ∃ s t c0 : ℚ,
        aget r0.2 "cost" = .num c0 ∧ aget r0.2 "successes" = .num s ∧
        aget r0.2 "trials" = .num t ∧ 0 ≤ s ∧ 0 ≤ c0 ∧
        t = (⌊c0 * 100⌋ : ℚ) + s + 1 ∧ 1 ≤ t) ∧
      (∀ r ∈ exOut.rows, ∃ r0 ∈ rs2, r.1 = r0.1 ∧
        aget r.2 "successes" = aget r0.2 "successes" ∧
        aget r.2 "trials" = aget r0.2 "trials")) :=
  ⟨by decide,
   C3_trials_encoding exDF none none none none exOut (by decide)
     (fun x h => by cases h) (fun x h => by cases h)
     (fun x h => by cases h) (fun x h => by cases h)
     preprocess_exDF_eval⟩

set_option maxRecDepth 8000 in
/-- C3 counterexample: on `fracDF` (costs `[1,1]`, impressions `[1,2]`,
no explicit weights) the first output row's `trials` cell is `503/3`,
whose reduced denominator is `3` — `trials` is not an integer, refuting
"trials is an integer" as stated. -/
theorem C3_trials_not_integral :
    preprocess fracDF none none none none = .ok fracOut ∧
    aget (fracOut.rows.headI).2 "trials" = .num (503/3) ∧
    (503/3 : ℚ).den = 3 :=
  ⟨preprocess_fracDF_eval, by decide, by decide⟩

/-- C2: in `preprocess`, for each of the four metrics independently, a
supplied weight is used unchanged; otherwise the inferred weight is `0`
when the metric's column sum over the rows remaining after the `cost == 0`
exclusion is zero, and `sum(cost) * 100 / sum(metric)` over those same
rows otherwise; and `preprocess` proceeds from exactly those resolved
weights (the weight-inference example `15.0` is instantiated in the
witness). -/
theorem C2_weight_resolution
    (d d1 d2 : DF) (m : String)
    (hm : m ∈ ["impressions", "engagements", "clicks", "conversions"])
    (h1 : fillnaAll metricCols (preprocessCanon d).replaceEmptyNa = .ok d1)
    (h2 : d1.filterCostNonzero = .ok d2) :
    (∀ w : ℚ, resolveWeight d2 m (some w) = .ok w) ∧
    (d2.colSum m = .ok 0 → resolveWeight d2 m none = .ok 0) ∧
    (∀ s cs : ℚ, d2.colSum m = .ok s → s ≠ 0 → d2.colSum "cost" = .ok cs →
      resolveWeight d2 m none = .ok (cs * 100 / s)) ∧
    (∀ iw ew cw kw : Option ℚ,
      preprocess d iw ew cw kw = resolveAndFinish d2 iw ew cw kw) := by
  refine ⟨fun w => rfl, fun hsum => ?_, fun s cs hs hsne hcs => ?_, ?_⟩
  · simp [resolveWeight, hsum]
  · simp [resolveWeight, hs, hsne, hcs]
  · intro iw ew cw kw
    unfold preprocess preprocessFull preprocessRest
    simp only [h1, h2]

set_option maxRecDepth 8000 in
/-- Witness for C2 at `exDF`: the post-exclusion frame is `exD2`; with no
explicit weight, impression sums `cost = 30`, `impressions = 200` give the
inferred weight `30 * 100 / 200 = 15`. -/
theorem C2_weight_resolution_witness :
    ("impressions" ∈ ["impressions", "engagements", "clicks", "conversions"]) ∧
    (fillnaAll metricCols (preprocessCanon exDF).replaceEmptyNa = .ok exD2) ∧
    (exD2.filterCostNonzero = .ok exD2) ∧
    resolveWeight exD2 "impressions" none = .ok 15 ∧
    preprocess exDF none none none none = resolveAndFinish exD2 none none none none := by
  have h := C2_weight_resolution exDF exD2 exD2 "impressions"
    (by decide) (by decide) (by decide)
  refine ⟨by decide, by decide, by decide, ?_, h.2.2.2 none none none none⟩
  have h3 := h.2.2.1 200 30 (by decide) (by decide) (by decide)
  rw [h3, show (30:ℚ) * 100 / 200 = 15 by norm_num]

/-- C6 counterexample: `preprocess` called with the negative supplied
weight `-50` does not fail — it returns a normal result (whose successes
are negative), refuting "the call fails with an InvalidWeight error". -/
theorem C6_negative_weight_accepted :
    preprocess negDF (some (-50)) (some 0) (some 0) (some 0) = .ok negOut := by
  decide

/-- C6 (amended): `preprocess` performs no weight validation at all: a
supplied weight — negative included — is used unchanged by the weight
resolution, and with weight `-50` on `negDF` the pipeline completes,
deriving successes `10 * (-50) = -500` and trials `500 - 500 + 1 = 1`. -/
theorem C6_no_weight_validation :
    (∀ (d : DF) (m : String) (w : ℚ), resolveWeight d m (some w) = .ok w) ∧
    preprocess negDF (some (-50)) (some 0) (some 0) (some 0) = .ok negOut ∧
    aget (negOut.rows.headI).2 "successes" = .num (-500) ∧
    aget (negOut.rows.headI).2 "trials" = .num 1 :=
  ⟨fun _ _ _ => rfl, by decide, by decide, by decide⟩

/-- Where the fillna loop of lines 34-36 stops when a metric column is
missing: the first absent column raises its `KeyError`. -/
theorem fillnaAll_missing : ∀ (cs : List String) (d : DF),
    (∃ c ∈ cs, c ∉ d.cols) →
    ∃ c ∈ cs, fillnaAll cs d = .error (.keyError c) ∧ c ∉ d.cols
  | [], d, h => by
    obtain ⟨c, hc, _⟩ := h
    cases hc
  | c :: cs, d, h => by
    by_cases hc : c ∈ d.cols
    · obtain ⟨c2, hc2, hnot⟩ := h
      have hc2cs : c2 ∈ cs := by
        cases hc2 with
        | head => exact absurd hc hnot
        | tail _ h2 => exact h2
      have h1 : ∃ d1, d.fillnaZero c = .ok d1 ∧ d1.cols = d.cols := by
        unfold DF.fillnaZero
        rw [if_pos hc]
        exact ⟨_, rfl, rfl⟩
      obtain ⟨d1, hd1, hcols⟩ := h1
      obtain ⟨c3, hc3, herr, hnot3⟩ :=
        fillnaAll_missing cs d1 ⟨c2, hc2cs, by rw [hcols]; exact hnot⟩
      refine ⟨c3, List.mem_cons_of_mem c hc3, ?_, by rw [← hcols]; exact hnot3⟩
      unfold fillnaAll
      rw [hd1]
      exact herr
    · refine ⟨c, List.mem_cons_self c cs, ?_, hc⟩
      unfold fillnaAll
      have : d.fillnaZero c = .error (.keyError c) := by
        unfold DF.fillnaZero
        rw [if_neg hc]
      rw [this]

/-- C7 (amended): when one of the five metric/cost columns is absent
after canonicalization and aliasing, `preprocess` does not treat it as
zero — it raises that column's `KeyError` at the fillna step. -/
theorem C7_missing_column_raises
    (d : DF) (iw ew cw kw : Option ℚ)
    (h : ∃ c ∈ metricCols, c ∉ (preprocessCanon d).cols) :
    ∃ c ∈ metricCols, preprocess d iw ew cw kw = .error (.keyError c) ∧
      c ∉ (preprocessCanon d).cols := by
  have hrep : (preprocessCanon d).replaceEmptyNa.cols = (preprocessCanon d).cols := rfl
  obtain ⟨c, hc, herr, hnot⟩ :=
    fillnaAll_missing metricCols (preprocessCanon d).replaceEmptyNa
      (by obtain ⟨c, hc, hn⟩ := h; exact ⟨c, hc, by rw [hrep]; exact hn⟩)
  refine ⟨c, hc, ?_, by rw [← hrep]; exact hnot⟩
  unfold preprocess preprocessFull preprocessRest
  simp only [herr]

/-- Witness for C7 at `noImpDF` (no impressions/engagements/clicks/
conversions columns): `preprocess` raises `KeyError 'impressions'`. -/
theorem C7_missing_column_raises_witness :
    (∃ c ∈ metricCols, c ∉ (preprocessCanon noImpDF).cols) ∧
    ∃ c ∈ metricCols, preprocess noImpDF none none none none = .error (.keyError c) ∧
      c ∉ (preprocessCanon noImpDF).cols :=
  ⟨by decide, C7_missing_column_raises noImpDF none none none none (by decide)⟩

/-- C7 counterexample: on `noImpDF` (columns `ad_id`, `date`, `cost`
only) `preprocess` raises `KeyError 'impressions'` instead of treating the
absent metric columns as all-zero, refuting "does not raise". -/
theorem C7_missing_column_not_zeroed :
    preprocess noImpDF none none none none = .error (.keyError "impressions") := by
  decide

/-! ### `filter_dates`: window semantics and idempotence -/

theorem rowHasKey_append (r s : Row) (c : String) :
    rowHasKey (r ++ s) c = (rowHasKey r c || rowHasKey s c) := by
  induction r with
  | nil => simp [rowHasKey]
  | cons p r ih => simp [rowHasKey, ih, Bool.or_assoc]

theorem rowHasKey_map_set (r : Row) (c c' : String) (v : Val) :
    rowHasKey (r.map (fun p => if p.1 = c then (c, v) else p)) c' =
      rowHasKey r c' := by
  induction r with
  | nil => rfl
  | cons p r ih =>
    by_cases hp : p.1 = c
    · simp [rowHasKey, hp, ih]
    · simp [rowHasKey, hp, ih]

theorem map_set_of_not_hasKey {r : Row} {c : String} (v : Val)
    (h : rowHasKey r c = false) :
    r.map (fun p => if p.1 = c then (c, v) else p) = r := by
  induction r with
  | nil => rfl
  | cons p r ih =>
    simp only [rowHasKey, Bool.or_eq_false_iff, decide_eq_false_iff_not] at h
    simp only [List.map_cons, if_neg h.1, ih h.2]

theorem asetRow_asetRow (r : Row) (c : String) (v w : Val) :
    asetRow (asetRow r c v) c w = asetRow r c w := by
  unfold asetRow
  by_cases hk : rowHasKey r c
  · rw [if_pos hk, if_pos (by rw [rowHasKey_map_set]; exact hk), if_pos hk,
      List.map_map]
    apply List.map_congr_left
    intro p _
    by_cases hp : p.1 = c
    · simp [hp]
    · simp [hp]
  · rw [if_neg hk,
      if_pos (by rw [rowHasKey_append]; simp [rowHasKey, hk]),
      if_neg hk, List.map_append,
      map_set_of_not_hasKey w (by simpa using hk)]
    simp

theorem parseCell_ok_form {x v : Val} (h : parseCell x = .ok v) :
    v = .na ∨ ∃ o : ℤ, v = .date o := by
  cases x with
  | na => cases h; exact Or.inl rfl
  | date o => cases h; exact Or.inr ⟨o, rfl⟩
  | num q => cases h
  | str s =>
    simp only [parseCell] at h
    cases hp : parseDateStr s with
    | none => rw [hp] at h; cases h
    | some o => rw [hp] at h; cases h; exact Or.inr ⟨o, rfl⟩

/-- A row already produced by the date parser: its `date` cell re-parses
to itself and rewriting it is a no-op. -/
def ParsedRow (r : ℕ × Row) : Prop :=
  parseCell (aget r.2 "date") = .ok (aget r.2 "date") ∧
  asetRow r.2 "date" (aget r.2 "date") = r.2

theorem parseRows_out : ∀ {rows rows' : List (ℕ × Row)},
    parseRows rows = .ok rows' → ∀ r ∈ rows', ParsedRow r
  | [], rows', h => by cases h; intro r hr; cases hr
  | r :: rs, rows', h => by
    unfold parseRows at h
    cases h1 : parseCell (aget r.2 "date") with
    | error e => rw [h1] at h; cases h
    | ok v =>
      simp only [h1] at h
      cases h2 : parseRows rs with
      | error e => rw [h2] at h; cases h
      | ok rest =>
        simp only [h2] at h
        cases h
        intro x hx
        cases hx with
        | head =>
          constructor
          · rw [aget_asetRow_self]
            rcases parseCell_ok_form h1 with hv | ⟨o, hv⟩ <;> rw [hv] <;> rfl
          · simp only [aget_asetRow_self]
            exact asetRow_asetRow r.2 "date" v v
        | tail _ hx2 => exact parseRows_out h2 x hx2

theorem parseRows_of_parsed : ∀ {rows : List (ℕ × Row)},
    (∀ r ∈ rows, ParsedRow r) → parseRows rows = .ok rows
  | [], _ => rfl
  | r :: rs, h => by
    obtain ⟨h1, h2⟩ := h r (List.mem_cons_self r rs)
    have ih := parseRows_of_parsed (fun x hx => h x (List.mem_cons_of_mem r hx))
    unfold parseRows
    simp only [h1, ih, h2]

theorem mem_setCols_self (cols : List String) (c : String) :
    c ∈ setCols cols c := by
  unfold setCols
  by_cases hc : c ∈ cols
  · rw [if_pos hc]; exact hc
  · rw [if_neg hc]; simp

/-- C5: with "today" injected, `filter_dates` parses the `date` column and
keeps exactly the rows whose parsed date is at least `today - cutoff`:
the lower bound is inclusive and there is no upper bound — a row's
membership in the output depends only on `today - cutoff ≤ date`.  (The
boundary example with today `2024-06-15` and cutoff 7 is instantiated in
the witness.) -/
theorem C5_filter_dates_window
    (today cutoff : ℤ) (d d1 : DF) (h : d.parseDateCol = .ok d1) :
    filter_dates today d cutoff =
      .ok ⟨d1.cols, d1.rows.filter
        (fun r => dateGE (aget r.2 "date") (today - cutoff))⟩ ∧
    (∀ v : Val, dateGE v (today - cutoff) = true ↔
      ∃ o : ℤ, v = .date o ∧ today - cutoff ≤ o) ∧
    (∀ r : ℕ × Row,
      r ∈ d1.rows.filter (fun r => dateGE (aget r.2 "date") (today - cutoff)) ↔
      r ∈ d1.rows ∧ ∃ o : ℤ, aget r.2 "date" = .date o ∧ today - cutoff ≤ o) := by
  refine ⟨?_, ?_, ?_⟩
  · unfold filter_dates filterDatesFull
    simp only [h]
  · intro v
    cases v with
    | date o =>
      simp only [dateGE, decide_eq_true_eq]
      constructor
      · exact fun ho => ⟨o, rfl, ho⟩
      · rintro ⟨o2, ho2, hle⟩
        cases ho2
        exact hle
    | na => simp [dateGE]
    | str s => simp [dateGE]
    | num q => simp [dateGE]
  · intro r
    rw [List.mem_filter]
    constructor
    · rintro ⟨hm, hp⟩
      refine ⟨hm, ?_⟩
      cases hv : aget r.2 "date" with
      | date o => exact ⟨o, rfl, by rw [hv] at hp; simpa [dateGE] using hp⟩
      | na => rw [hv] at hp; cases hp
      | str s => rw [hv] at hp; cases hp
      | num q => rw [hv] at hp; cases hp
    · rintro ⟨hm, o, ho, hle⟩
      exact ⟨hm, by rw [ho]; simpa [dateGE] using hle⟩

/-- Witness for C5: today fixed at 2024-06-15, cutoff 7; of the rows dated
2024-06-08 and 2024-06-07 exactly the first is kept. -/
theorem C5_filter_dates_window_witness :
    (wDF.parseDateCol = .ok wParsed) ∧
    filter_dates (jdn 2024 6 15) wDF 7 = .ok wKept ∧
    (jdn 2024 6 15 - 7 ≤ jdn 2024 6 8) ∧ ¬ (jdn 2024 6 15 - 7 ≤ jdn 2024 6 7) := by
  have h := C5_filter_dates_window (jdn 2024 6 15) 7 wDF wParsed (by decide)
  exact ⟨by decide, h.1.trans (by decide), by decide, by decide⟩

/-- C8: with "today" held fixed, `filter_dates` is idempotent — its
output is a fixed point: filtering a second time with the same cutoff (and
today) returns the output unchanged. -/
theorem C8_filter_dates_idempotent
    (today cutoff : ℤ) (d r : DF) (h : filter_dates today d cutoff = .ok r) :
    filter_dates today r cutoff = .ok r := by
  unfold filter_dates filterDatesFull at h ⊢
  cases h1 : d.parseDateCol with
  | error e => rw [h1] at h; cases h
  | ok d1 =>
    simp only [h1] at h
    cases h
    have hparsed : ∀ x ∈ d1.rows.filter
        (fun x => dateGE (aget x.2 "date") (today - cutoff)), ParsedRow x := by
      intro x hx
      have hd1 : parseRows d.rows = .ok d1.rows := by
        unfold DF.parseDateCol at h1
        by_cases hc : "date" ∈ d.cols
        · rw [if_pos hc] at h1
          cases h2 : parseRows d.rows with
          | error e => rw [h2] at h1; cases h1
          | ok rs => rw [h2] at h1; cases h1; rfl
        · rw [if_neg hc] at h1; cases h1
      exact parseRows_out hd1 x (List.mem_filter.1 hx).1
    have hdcol : "date" ∈ d1.cols := by
      unfold DF.parseDateCol at h1
      by_cases hc : "date" ∈ d.cols
      · rw [if_pos hc] at h1
        cases h2 : parseRows d.rows with
        | error e => rw [h2] at h1; cases h1
        | ok rs =>
          rw [h2] at h1
          cases h1
          exact mem_setCols_self d.cols "date"
      · rw [if_neg hc] at h1; cases h1
    have hp2 : (DF.mk d1.cols (d1.rows.filter
        (fun x => dateGE (aget x.2 "date") (today - cutoff)))).parseDateCol =
        .ok ⟨d1.cols, d1.rows.filter
          (fun x => dateGE (aget x.2 "date") (today - cutoff))⟩ := by
      unfold DF.parseDateCol
      rw [if_pos hdcol, parseRows_of_parsed hparsed]
      have : setCols d1.cols "date" = d1.cols := by
        unfold setCols
        rw [if_pos hdcol]
      rw [this]
    rw [hp2]
    simp only [List.filter_filter, Bool.and_self]

/-- Witness for C8: filtering `wDF` gives `wKept`; filtering `wKept`
again with the same today and cutoff returns `wKept` itself. -/
theorem C8_filter_dates_idempotent_witness :
    (filter_dates (jdn 2024 6 15) wDF 7 = .ok wKept) ∧
    filter_dates (jdn 2024 6 15) wKept 7 = .ok wKept := by
  have h : filter_dates (jdn 2024 6 15) wDF 7 = .ok wKept := by decide
  exact ⟨h, C8_filter_dates_idempotent (jdn 2024 6 15) 7 wDF wKept h⟩

/-! ### `reindex_options` under a default range index -/

theorem labeledFrom_of_range : ∀ (rows : List (ℕ × Row)) (s : ℕ),
    rows.map Prod.fst = List.range' s rows.length → labeledFrom s rows
  | [], _, _ => trivial
  | r :: rs, s, h => by
    rw [List.length_cons, List.range'_succ, List.map_cons] at h
    injection h with h1 h2
    exact ⟨h1, labeledFrom_of_range rs (s + 1) h2⟩

theorem labeledFrom_ge : ∀ {rows : List (ℕ × Row)} {s : ℕ}, labeledFrom s rows →
    ∀ x ∈ rows, s ≤ x.1
  | [], _, _, x, hx => by cases hx
  | r :: rs, s, h, x, hx => by
    obtain ⟨h1, h2⟩ := h
    cases hx with
    | head => exact h1.ge
    | tail _ hx2 => exact le_trans (Nat.le_succ s) (labeledFrom_ge h2 x hx2)

theorem map_setOpt_id {rows : List (ℕ × Row)} {i : ℕ} {g : ℕ × Row → ℕ × Row}
    (h : ∀ x ∈ rows, ¬ x.1 = i) :
    rows.map (fun x => if x.1 = i then g x else x) = rows := by
  induction rows with
  | nil => rfl
  | cons r rs ih =>
    rw [List.map_cons, if_neg (h r (List.mem_cons_self r rs)),
      ih (fun x hx => h x (List.mem_cons_of_mem r hx))]

theorem get?_append_cons : ∀ (l₁ : List (ℕ × Row)) (a : ℕ × Row) (l₂ : List (ℕ × Row)),
    (l₁ ++ a :: l₂).get? l₁.length = some a
  | [], _, _ => rfl
  | _ :: l₁, a, l₂ => get?_append_cons l₁ a l₂

theorem atSetOptionId_range (cols : List String) (done : List (ℕ × Row))
    (p : ℕ × Row) (pending : List (ℕ × Row)) (v : Val)
    (hdone : ∀ x ∈ done, x.1 < done.length)
    (hp : p.1 = done.length)
    (hpend : labeledFrom (done.length + 1) pending) :
    atSetOptionId ⟨cols, done ++ p :: pending⟩ done.length v =
      ⟨cols, done ++ (p.1, asetRow p.2 "option_id" v) :: pending⟩ := by
  unfold atSetOptionId
  rw [if_pos (List.any_eq_true.2 ⟨p, by simp, by simp [hp]⟩)]
  have hne1 : ∀ x ∈ done, ¬ x.1 = done.length :=
    fun x hx => Nat.ne_of_lt (hdone x hx)
  have hne2 : ∀ x ∈ pending, ¬ x.1 = done.length :=
    fun x hx => Nat.ne_of_gt (lt_of_lt_of_le (Nat.lt_succ_self _)
      (labeledFrom_ge hpend x hx))
  simp only [List.map_append, List.map_cons, map_setOpt_id hne1,
    map_setOpt_id hne2, if_pos hp]

theorem reindexLoop_spec (options : DF) (cols : List String) :
    ∀ (pending done : List (ℕ × Row)),
    (∀ x ∈ done, x.1 < done.length) →
    labeledFrom done.length pending →
    (∀ tail, reindexSpec.specRows options pending = .ok tail →
      reindexLoop options ⟨cols, done ++ pending⟩
          (List.range' done.length pending.length) =
        (⟨cols, done ++ tail⟩, none)) ∧
    (∀ e, reindexSpec.specRows options pending = .error e →
      ∃ dErr, reindexLoop options ⟨cols, done ++ pending⟩
          (List.range' done.length pending.length) = (dErr, some e))
  | [], done, _, _ => by
    constructor
    · intro tail ht
      cases ht
      simp [reindexLoop]
    · intro e he
      cases he
  | p :: pending, done, hdone, hlab => by
    obtain ⟨hp, hlab2⟩ := hlab
    have hstep0 : (done ++ p :: pending).get? done.length = some p :=
      get?_append_cons done p pending
    constructor
    all_goals
      rw [List.length_cons, List.range'_succ]
      unfold reindexLoop reindexStep
      rw [hstep0]
    · intro tail ht
      unfold reindexSpec.specRows at ht
      cases hm : optFirstMatch options (aget p.2 "ad_id") with
      | error e => rw [hm] at ht; cases ht
      | ok j =>
        rw [hm] at ht
        cases hs : reindexSpec.specRows options pending with
        | error e => rw [hs] at ht; cases ht
        | ok rest =>
          rw [hs] at ht
          cases ht
          simp only [hm]
          rw [atSetOptionId_range cols done p pending (.num j) hdone hp hlab2]
          have hdone2 : ∀ x ∈ done ++ [(p.1, asetRow p.2 "option_id" (Val.num j))],
              x.1 < (done ++ [(p.1, asetRow p.2 "option_id" (Val.num j))]).length := by
            intro x hx
            rw [List.length_append, List.length_cons, List.length_nil]
            rcases List.mem_append.1 hx with hx1 | hx1
            · exact lt_trans (hdone x hx1) (Nat.lt_succ_self _)
            · cases hx1 with
              | head => rw [hp]; exact Nat.lt_succ_self _
              | tail _ hx2 => cases hx2
          have hlen2 : (done ++ [(p.1, asetRow p.2 "option_id" (Val.num j))]).length =
              done.length + 1 := by
            rw [List.length_append, List.length_cons, List.length_nil]
          have hrec := (reindexLoop_spec options cols pending
            (done ++ [(p.1, asetRow p.2 "option_id" (Val.num j))]) hdone2
            (by rw [hlen2]; exact hlab2)).1 rest hs
          rw [hlen2, List.append_assoc] at hrec
          simp only [List.singleton_append] at hrec
          rw [hrec]
          rw [asetRow_asetRow]
          simp only [List.append_assoc, List.singleton_append]
    · intro e he
      unfold reindexSpec.specRows at he
      cases hm : optFirstMatch options (aget p.2 "ad_id") with
      | error e2 =>
        rw [hm] at he
        cases he
        simp only [hm]
        exact ⟨_, rfl⟩
      | ok j =>
        rw [hm] at he
        cases hs : reindexSpec.specRows options pending with
        | ok rest => rw [hs] at he; cases he
        | error e2 =>
          rw [hs] at he
          cases he
          simp only [hm]
          rw [atSetOptionId_range cols done p pending (.num j) hdone hp hlab2]
          have hdone2 : ∀ x ∈ done ++ [(p.1, asetRow p.2 "option_id" (Val.num j))],
              x.1 < (done ++ [(p.1, asetRow p.2 "option_id" (Val.num j))]).length := by
            intro x hx
            rw [List.length_append, List.length_cons, List.length_nil]
            rcases List.mem_append.1 hx with hx1 | hx1
            · exact lt_trans (hdone x hx1) (Nat.lt_succ_self _)
            · cases hx1 with
              | head => rw [hp]; exact Nat.lt_succ_self _
              | tail _ hx2 => cases hx2
          have hlen2 : (done ++ [(p.1, asetRow p.2 "option_id" (Val.num j))]).length =
              done.length + 1 := by
            rw [List.length_append, List.length_cons, List.length_nil]
          obtain ⟨dErr, hrec⟩ := (reindexLoop_spec options cols pending
            (done ++ [(p.1, asetRow p.2 "option_id" (Val.num j))]) hdone2
            (by rw [hlen2]; exact hlab2)).2 e hs
          rw [hlen2, List.append_assoc] at hrec
          simp only [List.singleton_append] at hrec
          rw [hrec]
          exact ⟨dErr, rfl⟩

theorem specRows_aset0 (options : DF) : ∀ rows : List (ℕ × Row),
    reindexSpec.specRows options
        (rows.map (fun r => (r.1, asetRow r.2 "option_id" (.num 0)))) =
      reindexSpec.specRows options rows
  | [] => rfl
  | r :: rs => by
    have ih := specRows_aset0 options rs
    unfold reindexSpec.specRows
    simp only [List.map_cons]
    rw [show aget (asetRow r.2 "option_id" (Val.num 0)) "ad_id" = aget r.2 "ad_id"
      from aget_asetRow_ne _ _ (by decide)]
    cases hm : optFirstMatch options (aget r.2 "ad_id") with
    | error e => rfl
    | ok j =>
      rw [ih]
      cases hs : reindexSpec.specRows options rs with
      | error e => rfl
      | ok rest =>
        simp only
        rw [asetRow_asetRow, asetRow_asetRow]

theorem reindex_refines {d : DF}
    (h : d.rows.map Prod.fst = List.range d.rows.length) :
    reindex_options d = reindexSpec d := by
  unfold reindex_options reindexFull reindexSpec
  cases hdc : dropIdCols d with
  | error e => simp only [hdc]
  | ok comb =>
    simp only [hdc, DF.addColConst]
    have hlab : labeledFrom 0
        (d.rows.map (fun r => (r.1, asetRow r.2 "option_id" (Val.num 0)))) := by
      apply labeledFrom_of_range
      rw [List.map_map, List.length_map, ← List.range_eq_range']
      exact h
    have hnil : ∀ x ∈ ([] : List (ℕ × Row)), x.1 < ([] : List (ℕ × Row)).length :=
      fun x hx => absurd hx (List.not_mem_nil x)
    obtain ⟨hok, herr⟩ := reindexLoop_spec (optionsOf comb)
      (setCols d.cols "option_id")
      (d.rows.map (fun r => (r.1, asetRow r.2 "option_id" (Val.num 0)))) []
      hnil (by exact hlab)
    have hlist : List.range
        (d.rows.map (fun r => (r.1, asetRow r.2 "option_id" (Val.num 0)))).length =
        List.range' 0 d.rows.length := by
      rw [List.length_map, List.range_eq_range']
    cases hs : reindexSpec.specRows (optionsOf comb)
        (d.rows.map (fun r => (r.1, asetRow r.2 "option_id" (Val.num 0)))) with
    | ok tail =>
      have hloop := hok tail hs
      simp only [List.nil_append, List.length_nil] at hloop
      have hs2 : reindexSpec.specRows (optionsOf comb) d.rows = .ok tail :=
        (specRows_aset0 (optionsOf comb) d.rows).symm.trans hs
      rw [List.length_map] at hloop
      rw [hlist]
      simp only [hloop, hs2]
    | error e =>
      obtain ⟨dErr, hloop⟩ := herr e hs
      simp only [List.nil_append, List.length_nil] at hloop
      have hs2 : reindexSpec.specRows (optionsOf comb) d.rows = .error e :=
        (specRows_aset0 (optionsOf comb) d.rows).symm.trans hs
      rw [List.length_map] at hloop
      rw [hlist]
      simp only [hloop, hs2]

theorem specRows_out (options : DF) : ∀ {rows rows' : List (ℕ × Row)},
    reindexSpec.specRows options rows = .ok rows' →
    ∀ x ∈ rows', ∃ j : ℕ, optFirstMatch options (aget x.2 "ad_id") = .ok j ∧
      aget x.2 "option_id" = .num j
  | [], rows', h => by cases h; intro x hx; cases hx
  | r :: rs, rows', h => by
    unfold reindexSpec.specRows at h
    cases hm : optFirstMatch options (aget r.2 "ad_id") with
    | error e => rw [hm] at h; cases h
    | ok j =>
      simp only [hm] at h
      cases hs : reindexSpec.specRows options rs with
      | error e => rw [hs] at h; cases h
      | ok rest =>
        simp only [hs] at h
        cases h
        intro x hx
        cases hx with
        | head =>
          refine ⟨j, ?_, ?_⟩
          · rw [show aget (asetRow (asetRow r.2 "option_id" (Val.num 0))
                "option_id" (Val.num j)) "ad_id" = aget r.2 "ad_id" from
              (aget_asetRow_ne _ _ (by decide)).trans
                (aget_asetRow_ne _ _ (by decide))]
            exact hm
          · exact aget_asetRow_self _ _ _
        | tail _ hx2 => exact specRows_out options hs x hx2

/-- C4 (amended): provided the input's row labels are the default range
`0..n-1`, `reindex_options` implements the specification: the options
table is the first-seen-order deduplication of the input rows with
`date`, `trials`, `successes` removed, positions serving as option ids,
and every row is assigned the label of the first option whose `ad_id`
equals its own. -/
theorem C4_reindex_options (d : DF)
    (h : d.rows.map Prod.fst = List.range d.rows.length) :
    reindex_options d = reindexSpec d ∧
    (∀ comb, dropIdCols d = .ok comb →
      (optionsOf comb).rows =
        (firstDedup (comb.rows.map (fun r => r.2))).enum) :=
  ⟨reindex_refines h, fun _ _ => rfl⟩

/-- Witness for C4 at `rangeDF` (default range index `0, 1, 2`). -/
theorem C4_reindex_options_witness :
    (rangeDF.rows.map Prod.fst = List.range rangeDF.rows.length) ∧
    reindex_options rangeDF = reindexSpec rangeDF :=
  ⟨by decide, (C4_reindex_options rangeDF (by decide)).1⟩

/-- C4 counterexample: on `badDF`, whose labels are `0` and `2`, the `B`
row is assigned `option_id 0` although the first (and only) option with
`ad_id B` sits at position `1` of the options table — refuting the claim
as stated for arbitrary inputs. -/
theorem C4_nonrange_misassigned :
    reindex_options badDF = .ok (badOpts, badOut) ∧
    badRowBOut ∈ badOut.rows ∧
    aget badRowBOut.2 "ad_id" = .str "B" ∧
    optFirstMatch badOpts (.str "B") = .ok 1 ∧
    aget badRowBOut.2 "option_id" = .num 0 ∧
    Val.num 0 ≠ Val.num 1 :=
  ⟨by decide, by decide, by decide, by decide, by decide, by decide⟩

/-- C10: `reindex_options` mixes label-based writes (`.at[i, ...]`) with
positional reads (`.iloc[i]`): under the implicit precondition that the
row labels are exactly `0..n-1` every row's `option_id` is assigned
consistently (the first option matching its `ad_id`), whereas on an input
with other labels — such as the direct output of a row-dropping stage —
the loop writes option ids to the wrong rows and appends newly-created
junk rows (concretely on `badDF`: labels `0, 2`; the `B` row keeps
`option_id 0` though its option has id `1`, and an all-`NaN` row labelled
`1` is appended). -/
theorem C10_reindex_label_precondition :
    (∀ (d : DF), d.rows.map Prod.fst = List.range d.rows.length →
      ∀ opts d2, reindex_options d = .ok (opts, d2) →
      ∀ r ∈ d2.rows, ∃ j : ℕ,
        optFirstMatch opts (aget r.2 "ad_id") = .ok j ∧
        aget r.2 "option_id" = .num j) ∧
    (badDF.rows.map Prod.fst ≠ List.range badDF.rows.length ∧
     reindex_options badDF = .ok (badOpts, badOut) ∧
     badOut.rows.length = badDF.rows.length + 1 ∧
     badRowBOut ∈ badOut.rows ∧
     optFirstMatch badOpts (aget badRowBOut.2 "ad_id") = .ok 1 ∧
     aget badRowBOut.2 "option_id" = .num 0) := by
  constructor
  · intro d hd opts d2 hok r hr
    rw [reindex_refines hd] at hok
    unfold reindexSpec at hok
    cases hdc : dropIdCols d with
    | error e => rw [hdc] at hok; cases hok
    | ok comb =>
      simp only [hdc] at hok
      cases hs : reindexSpec.specRows (optionsOf comb) d.rows with
      | error e => rw [hs] at hok; cases hok
      | ok rs =>
        simp only [hs] at hok
        cases hok
        exact specRows_out (optionsOf comb) hs r hr
  · exact ⟨by decide, by decide, by decide, by decide, by decide, by decide⟩

/-- Witness for C10 at `rangeDF`: range labels, and every row of the
result carries the option id of the first matching option. -/
theorem C10_reindex_label_precondition_witness :
    (rangeDF.rows.map Prod.fst = List.range rangeDF.rows.length) ∧
    (reindex_options rangeDF = .ok (rangeOpts, rangeOut)) ∧
    (∀ r ∈ rangeOut.rows, ∃ j : ℕ,
      optFirstMatch rangeOpts (aget r.2 "ad_id") = .ok j ∧
      aget r.2 "option_id" = .num j) :=
  ⟨by decide, by decide,
   C10_reindex_label_precondition.1 rangeDF (by decide) rangeOpts rangeOut
     (by decide)⟩

/-- C9 counterexample: `preprocess` is not observationally pure — after
the call the caller's `exDF` has been canonicalized/renamed in place
(e.g. `Amount Spent (EUR)` became `cost`), so the caller's view differs
from the original input. -/
theorem C9_preprocess_mutates_input :
    (preprocessFull exDF none none none none).1 ≠ exDF := by
  decide

/-- C9 (amended): the pipeline stages are not observationally pure.
`preprocess` renames and drops the caller's columns in place (lines
15-31), `filter_dates` overwrites the caller's `date` column with parsed
dates (line 84), and `reindex_options` creates and fills `option_id` on
the caller's frame (lines 98-101) — moreover the per-row table it returns
*is* the caller's mutated frame (aliasing). -/
theorem C9_stages_not_pure :
    (∃ d : DF, (preprocessFull d none none none none).1 ≠ d) ∧
    (∃ (t c : ℤ) (d : DF), (filterDatesFull t d c).1 ≠ d) ∧
    (∃ d : DF, (reindexFull d).1 ≠ d) ∧
    (∀ (d o r : DF), reindex_options d = .ok (o, r) → (reindexFull d).1 = r) := by
  refine ⟨⟨exDF, by decide⟩, ⟨jdn 2024 6 15, 7, wDF, by decide⟩,
    ⟨rangeDF, by decide⟩, ?_⟩
  intro d o r h
  unfold reindex_options at h
  unfold reindexFull at h ⊢
  cases hdc : dropIdCols d with
  | error e => rw [hdc] at h; cases h
  | ok comb =>
    simp only [hdc] at h ⊢
    cases hl : reindexLoop (optionsOf comb) (d.addColConst "option_id" (Val.num 0))
        (List.range (d.addColConst "option_id" (Val.num 0)).rows.length) with
    | mk d1 res =>
      simp only [hl] at h ⊢
      cases res with
      | none => cases h; rfl
      | some e => cases h

/-- Witness for C9's aliasing clause at `rangeDF`: the returned per-row
table equals the caller's post-call view of its argument. -/
theorem C9_stages_not_pure_witness :
    (reindex_options rangeDF = .ok (rangeOpts, rangeOut)) ∧
    (reindexFull rangeDF).1 = rangeOut :=
  ⟨by decide, C9_stages_not_pure.2.2.2 rangeDF rangeOpts rangeOut (by decide)⟩
